import Mathlib

/-!
# Verification of the xafv demux / frame-sampling / cover-embedding pipeline

Shallow embedding of `src/xafv.py`: the audio remuxer
(`extract_audio_pure_python`), the solid-color heuristic
(`is_solid_color_image`), the frame sampler (`extract_non_solid_frame`),
the image preparation (`_read_and_optionally_resize`) and the cover
embedder (`embed_cover`).

Modelling conventions:
* Python floats are modelled as exact rationals (`ℚ`); `int(x)` for
  `x ≥ 0` is truncation toward zero, modelled by `ratTrunc`.
* Media packets are opaque records of timestamps and payload bytes;
  demuxing yields the stream's packets in file order.
* File-system effects (opening output containers, saving and removing
  image files) are recorded as explicit traces in the returned values.
-/

namespace Xafv

/-- Truncation toward zero of a rational, the meaning of Python's `int(x)`
on a float.  `Int.div` is T-division, matching CPython. -/
def ratTrunc (q : ℚ) : Int := Int.tdiv q.num (q.den : Int)

/-- Model of `os.path.join(folder, name)` for the simple two-component
case used by the source. -/
def joinPath (folder name : String) : String := folder ++ "/" ++ name

/-! ## Data model: packets, streams, containers (§3 of the spec) -/

/-- A still-encoded media packet: decode timestamp, presentation
timestamp (both optional, in stream time-base ticks) and payload bytes. -/
structure Packet where
  dts : Option Int
  pts : Option Int
  payload : List Nat
  deriving Repr, DecidableEq

/-- One elementary stream of a container: a type tag (`"audio"`,
`"video"`, ...), a codec identifier, a time base (seconds per tick) and
its packets in file order (what `container.demux(stream)` yields). -/
structure MediaStream where
  type : String
  codecName : String
  time_base : ℚ
  packets : List Packet
  deriving Repr, DecidableEq

/-- An input media file: whether the path exists as a file, its basename
without extension, and its streams in container order. -/
structure InputFile where
  isFile : Bool
  basename : String
  streams : List MediaStream
  deriving Repr, DecidableEq

/-- The output container written by the remuxer: its path, the codec of
its single stream, and the packets muxed into it, in order. -/
structure OutContainer where
  filename : String
  codecName : String
  packets : List Packet
  deriving Repr, DecidableEq

/-- Failure modes of `extract_audio_pure_python`. -/
inductive ExtractErr where
  | inputNotFound
  | noAudioStream
  deriving Repr, DecidableEq

/-- Result of a remux run together with the trace of output containers
that were opened for writing (`av.open(..., mode="w")` calls). -/
structure RemuxTrace where
  openedOutputs : List String
  result : Except ExtractErr OutContainer
  deriving Repr

/-! ## The remuxer, `extract_audio_pure_python` (xafv.py lines 23-75) -/

/-- The fixed codec-to-extension table of xafv.py lines 35-39. -/
def extension_map : List (String × String) :=
  [("aac", "m4a"), ("mp3", "mp3"), ("flac", "flac"),
   ("opus", "opus"), ("vorbis", "ogg"), ("alac", "m4a"),
   ("pcm_s16le", "wav")]

/-- `extension_map.get(codec_name, codec_name)` (xafv.py line 40): table
lookup with the codec name itself as the fallback. -/
def lookupExt (codec : String) : String :=
  match extension_map.lookup codec with
  | some e => e
  | none => codec

/-- The packet-copy loop of xafv.py lines 65-69: each demuxed packet with
an absent decode timestamp is skipped; every other packet is appended to
the output container unchanged (retargeting to the output stream does
not alter timestamps or payload). -/
def muxLoop (outPkts : List Packet) (pkts : List Packet) : List Packet :=
  match pkts with
  | [] => outPkts
  | p :: rest =>
    match p.dts with
    | none => muxLoop outPkts rest
    | some _ => muxLoop (outPkts ++ [p]) rest

/-- `extract_audio_pure_python(input_video, output_folder)` (xafv.py
lines 23-75): check the path, select the first audio stream (error
`noAudioStream` if none, before any output is opened), derive the output
name from the codec via `lookupExt`, open the output container and remux
the packets through `muxLoop`. -/
def extract_audio_pure_python (inp : InputFile) (output_folder : String) : RemuxTrace :=
  if inp.isFile = false then
    { openedOutputs := [], result := .error .inputNotFound }
  else
    match inp.streams.find? (fun s => s.type == "audio") with
    | none => { openedOutputs := [], result := .error .noAudioStream }
    | some audio_stream =>
      let codec_name := audio_stream.codecName
      let ext := lookupExt codec_name
      let output_filename := joinPath output_folder (inp.basename ++ "." ++ ext)
      { openedOutputs := [output_filename],
        result := .ok { filename := output_filename,
                        codecName := codec_name,
                        packets := muxLoop [] audio_stream.packets } }

/-! ## Solid-color heuristic, `is_solid_color_image` (xafv.py lines 80-92) -/

/-- An in-memory RGB raster: rows of `(r, g, b)` samples, the shape of
`np.asarray(pil_img.convert("RGB"))`. -/
abbrev Img : Type := List (List (Nat × Nat × Nat))

/-- Number of rows, `arr.shape[0]`. -/
def imgH (img : Img) : Nat := img.length

/-- Number of columns, `arr.shape[1]` (numpy arrays are rectangular, so
the first row's length is the width). -/
def imgW (img : Img) : Nat :=
  match img with
  | [] => 0
  | r :: _ => r.length

/-- Python slice `[::4]`: every 4th element starting at index 0. -/
def every4 {α : Type} (l : List α) : List α :=
  (l.enum.filter (fun p => p.1 % 4 = 0)).map (fun p => p.2)

/-- The downsampling step of xafv.py lines 83-85: `sample = arr;
if h * w > 500_000: sample = arr[::4, ::4]`. -/
def solidSample (img : Img) : Img :=
  if imgH img * imgW img > 500000 then (every4 img).map every4 else img

/-- The three per-channel value lists of `sample.reshape(-1, 3)`, as
rationals (channel order r, g, b). -/
def sampleChannels (img : Img) : List (List ℚ) :=
  let flat := (solidSample img).flatten
  [flat.map (fun p => (p.1 : ℚ)),
   flat.map (fun p => (p.2.1 : ℚ)),
   flat.map (fun p => (p.2.2 : ℚ))]

/-- Mean of a list of rationals (`0` on the empty list, via `ℚ`'s
division by zero). -/
def listMean (xs : List ℚ) : ℚ := xs.sum / (xs.length : ℚ)

/-- Population variance (`np.std(..., axis=0)` squared; numpy uses
`ddof = 0`). -/
def listVar (xs : List ℚ) : ℚ :=
  ((xs.map (fun x => (x - listMean xs) ^ 2)).sum) / (xs.length : ℚ)

/-- The comparison `std(xs) ≤ tol`, encoded without square roots: both
sides are nonnegative exactly when `tol` is, so `std ≤ tol` is
equivalent to `0 ≤ tol ∧ var ≤ tol²`. -/
def channelStdLe (xs : List ℚ) (tol : ℚ) : Bool :=
  decide (0 ≤ tol ∧ listVar xs ≤ tol ^ 2)

/-- `is_solid_color_image(pil_img, tolerance=5, unique_color_threshold=10)`
(xafv.py lines 80-92): downsample when the pixel count exceeds 500 000,
return `True` when the distinct-color count of the sample is at most the
threshold, else return `True` iff every per-channel standard deviation
is at most the tolerance. -/
def is_solid_color_image (img : Img) (tolerance : ℚ) (unique_color_threshold : Nat) : Bool :=
  let sample := solidSample img
  let unique_colors := sample.flatten.dedup
  if unique_colors.length ≤ unique_color_threshold then true
  else
    let stds_ok := (sampleChannels img).all (fun ch => channelStdLe ch tolerance)
    if stds_ok then true else false

/-! ## Frame sampler, `extract_non_solid_frame` (xafv.py lines 94-175) -/

/-- Failure modes of `extract_non_solid_frame`. -/
inductive SampleErr where
  | inputNotFound
  | badPercent
  | noVideoStream
  | durationUnknown
  | noFrame
  deriving Repr, DecidableEq

/-- A video input for the sampler: path validity, basename, presence of
a video stream, the two optional duration sources, the video stream's
time base, and the decode oracle: `decode t` is the first frame obtained
by `container.decode(stream)` after seeking to tick `t` (`none` when the
decoder yields no frame there). -/
structure VideoInput where
  isFile : Bool
  basename : String
  hasVideo : Bool
  containerDuration : Option Int
  streamDuration : Option Int
  time_base : ℚ
  decode : Int → Option Img

/-- `av.time_base`: the fixed global microsecond time base. -/
def av_time_base : ℚ := 1000000

/-- The duration resolution of xafv.py lines 110-119: prefer
`container.duration / av.time_base`, fall back to
`stream.duration * stream.time_base`, else unresolved. -/
def resolve_duration (v : VideoInput) : Option ℚ :=
  match v.containerDuration with
  | some d => some ((d : ℚ) / av_time_base)
  | none =>
    match v.streamDuration with
    | some sd => some ((sd : ℚ) * v.time_base)
    | none => none

/-- The offset list built by xafv.py lines 124-128: `[0.0]` followed by
`sign * mult * step` for `i in range(1, max_attempts)` with
`sign = -1 if i % 2 == 1 else 1` and `mult = (i + 1) // 2`. -/
def build_offsets (max_attempts : Int) (step_seconds : ℚ) : List ℚ :=
  [0] ++ (List.range (max_attempts - 1).toNat).map (fun i0 =>
    let i := i0 + 1
    let sign : ℚ := if i % 2 = 1 then -1 else 1
    let mult : Nat := (i + 1) / 2
    sign * (mult : ℚ) * step_seconds)

/-- Python list slice `l[:m]` for a possibly negative bound `m`. -/
def pySliceTo {α : Type} (l : List α) (m : Int) : List α :=
  if 0 ≤ m then l.take m.toNat else l.take (l.length - (-m).toNat)

/-- The clamped seek target in seconds, xafv.py lines 135-136:
`ts = max(0.0, min(target_time + off, duration_seconds - 1e-3))`. -/
def seek_target_seconds (target off duration : ℚ) : ℚ :=
  max 0 (min (target + off) (duration - 1 / 1000))

/-- The integer seek tick, xafv.py line 138:
`seek_ts = int(ts / time_base_seconds)`. -/
def seek_tick (tb target duration off : ℚ) : Int :=
  ratTrunc (seek_target_seconds target off duration / tb)

/-- The sampler configuration threaded through the attempt loop. -/
structure SampleCfg where
  basename : String
  output_path : Option String
  image_format : String
  percent : ℚ
  tolerance : ℚ
  unique_color_threshold : Nat
  time_base : ℚ
  decode : Int → Option Img

/-- Builds the loop configuration from the opened input. -/
def mkCfg (v : VideoInput) (percent : ℚ) (output_path : Option String)
    (image_format : String) (tolerance : ℚ) (uct : Nat) : SampleCfg :=
  { basename := v.basename, output_path := output_path,
    image_format := image_format, percent := percent,
    tolerance := tolerance, unique_color_threshold := uct,
    time_base := v.time_base, decode := v.decode }

/-- The saved-image name for attempt index `i` (0-based), xafv.py lines
146-150: the caller-specified path when given, else
`{base}_{pct}pct_try{i+1}.{image_format}`. -/
def attempt_out (c : SampleCfg) (i : Nat) : String :=
  match c.output_path with
  | some p => p
  | none =>
    c.basename ++ "_" ++ toString (ratTrunc (c.percent * 100)) ++
      "pct_try" ++ toString (i + 1) ++ "." ++ c.image_format

/-- The attempt-loop state: the first persisted image (kept as the
fallback), the accepted image if any, the set of files currently on
disk, and the trace of seek ticks attempted so far. -/
structure LoopSt where
  first_attempt_path : Option String
  saved_path : Option String
  files : List String
  seeks : List Int
  deriving Repr, DecidableEq

/-- The attempt loop of xafv.py lines 134-166.  For each offset: seek
(recorded in the trace; a failed seek is swallowed), decode at most one
frame; if one decodes, save it, remember the very first saved path, stop
with it when it is not solid, else delete it (unless it is the first
saved path) and move to the next offset. -/
def sampleLoop (c : SampleCfg) (duration target : ℚ) :
    Nat → List ℚ → LoopSt → LoopSt
  | _, [], st => st
  | i, off :: rest, st =>
    let t := seek_tick c.time_base target duration off
    let st1 : LoopSt := { st with seeks := st.seeks ++ [t] }
    match c.decode t with
    | none => sampleLoop c duration target (i + 1) rest st1
    | some img =>
      let out := attempt_out c i
      let files1 := if out ∈ st1.files then st1.files else st1.files ++ [out]
      let fap := match st1.first_attempt_path with
                 | none => some out
                 | some p => some p
      if is_solid_color_image img c.tolerance c.unique_color_threshold = false then
        { first_attempt_path := fap, saved_path := some out,
          files := files1, seeks := st1.seeks }
      else
        let files2 := if fap = some out then files1 else files1.erase out
        sampleLoop c duration target (i + 1) rest
          { first_attempt_path := fap, saved_path := st.saved_path,
            files := files2, seeks := st1.seeks }

/-- Result of a sampling run: the image files remaining on disk, the
trace of attempted seek ticks, and the returned path or error. -/
structure SampleTrace where
  files : List String
  seeks : List Int
  result : Except SampleErr String
  deriving Repr

/-- `extract_non_solid_frame(input_path, percent=0.1, output_path=None,
image_format="png", max_attempts=7, step_seconds=0.5, tolerance=5,
unique_color_threshold=10)` (xafv.py lines 94-175). -/
def extract_non_solid_frame (v : VideoInput) (percent : ℚ)
    (output_path : Option String) (image_format : String)
    (max_attempts : Int) (step_seconds : ℚ)
    (tolerance : ℚ) (uct : Nat) : SampleTrace :=
  if v.isFile = false then
    { files := [], seeks := [], result := .error .inputNotFound }
  else if 0 ≤ percent ∧ percent ≤ 1 then
    if v.hasVideo = false then
      { files := [], seeks := [], result := .error .noVideoStream }
    else
      match resolve_duration v with
      | none => { files := [], seeks := [], result := .error .durationUnknown }
      | some duration =>
        let target_time := duration * percent
        let offs := pySliceTo (build_offsets max_attempts step_seconds) max_attempts
        let c := mkCfg v percent output_path image_format tolerance uct
        let st := sampleLoop c duration target_time 0 offs
          { first_attempt_path := none, saved_path := none, files := [], seeks := [] }
        match st.saved_path with
        | some p => { files := st.files, seeks := st.seeks, result := .ok p }
        | none =>
          match st.first_attempt_path with
          | none => { files := st.files, seeks := st.seeks, result := .error .noFrame }
          | some p => { files := st.files, seeks := st.seeks, result := .ok p }
  else
    { files := [], seeks := [], result := .error .badPercent }

/-- Index of the first offset whose seek tick decodes a frame, relative
to the front of the given offset list. -/
def firstIdx (c : SampleCfg) (duration target : ℚ) : List ℚ → Option Nat
  | [] => none
  | off :: rest =>
    if (c.decode (seek_tick c.time_base target duration off)).isSome then some 0
    else (firstIdx c duration target rest).map (fun k => k + 1)

/-- The sequence the spec describes for retry offsets: term 0 is `0`,
then alternating outward, `-step, +step, -2*step, +2*step, ...`. -/
def claimed_offset (step : ℚ) (k : Nat) : ℚ :=
  if k = 0 then 0
  else if k % 2 = 1 then -((k / 2 + 1 : Nat) : ℚ) * step
  else ((k / 2 : Nat) : ℚ) * step

/-! ## Image preparation, `_read_and_optionally_resize` (xafv.py 180-199) -/

/-- A PIL image as the embedder sees it: pixel dimensions, the stored
format string (empty string modelling `im.format` being `None`), and an
abstract encoder giving the bytes `im.save` produces at given output
dimensions. -/
structure PILImage where
  width : Nat
  height : Nat
  format : String
  encoded : Nat → Nat → List Nat

/-- ASCII upper-casing of one character (format names are ASCII, where
Python's `str.upper` is exactly this). -/
def charUpper (c : Char) : Char :=
  if 97 ≤ c.toNat ∧ c.toNat ≤ 122 then Char.ofNat (c.toNat - 32) else c

/-- ASCII lower-casing of one character. -/
def charLower (c : Char) : Char :=
  if 65 ≤ c.toNat ∧ c.toNat ≤ 90 then Char.ofNat (c.toNat + 32) else c

/-- `fmt.upper()` for ASCII format names. -/
def strUpper (s : String) : String := String.mk (s.data.map charUpper)

/-- `fmt.lower()` for ASCII format names. -/
def strLower (s : String) : String := String.mk (s.data.map charLower)

/-- `mime = "image/jpeg" if fmt.upper() in ("JPEG", "JPG") else
f"image/{fmt.lower()}"` (xafv.py line 183). -/
def mime_of_format (fmt : String) : String :=
  if strUpper fmt = "JPEG" ∨ strUpper fmt = "JPG" then "image/jpeg"
  else "image/" ++ strLower fmt

/-- Round a rational to the nearest integer, ties to even — the
rounding mode of IEEE-754 arithmetic. -/
def roundNearestEven (q : ℚ) : Int :=
  if Int.fract q < 1 / 2 then ⌊q⌋
  else if 1 / 2 < Int.fract q then ⌊q⌋ + 1
  else if ⌊q⌋ % 2 = 0 then ⌊q⌋ else ⌊q⌋ + 1

/-- Round a positive rational onto the binary64 grid: keep 53
significant bits at the scale fixed by the floor base-2 logarithm,
rounding to nearest with ties to even. -/
def flPos (q : ℚ) : ℚ :=
  ((roundNearestEven (q / (2 : ℚ) ^ (Int.log 2 q - 52)) : ℤ) : ℚ) *
    (2 : ℚ) ^ (Int.log 2 q - 52)

/-- Rounding a rational to an IEEE-754 binary64 value (a CPython
float), with unbounded exponent range: every quantity in this pipeline
is far inside the normal range of doubles, so no subnormal or overflow
cases arise. -/
def fl (q : ℚ) : ℚ :=
  if q = 0 then 0 else if 0 < q then flPos q else -flPos (-q)

/-- The unit roundoff of binary64: rounding a positive value perturbs
it by a relative error of at most `eps = 2⁻⁵³`. -/
def eps : ℚ := 1 / 9007199254740992

/-- The resize rule of xafv.py lines 184-190 under the program's actual
IEEE-754 double arithmetic: `scale = max_size / float(longest)`
converts both integers to doubles and divides with one rounding, and
`int(side * scale)` multiplies with one rounding and truncates toward
zero.  A nonzero maximum side is required (`if max_size:` is false for
`None` and for `0`) and the resize happens only when the longest side
exceeds it. -/
def resize_dims (w h : Nat) (max_size : Option Nat) : Nat × Nat :=
  match max_size with
  | none => (w, h)
  | some m =>
    if m = 0 then (w, h)
    else
      let longest := max w h
      if longest > m then
        let scale := fl (fl (m : ℚ) / fl (longest : ℚ))
        ((ratTrunc (fl (fl (w : ℚ) * scale))).toNat,
         (ratTrunc (fl (fl (h : ℚ) * scale))).toNat)
      else (w, h)

/-- The prepared image returned by `_read_and_optionally_resize`:
encoded bytes, MIME type, and the (possibly resized) dimensions. -/
structure PreparedImage where
  data : List Nat
  mime : String
  width : Nat
  height : Nat

/-- `_read_and_optionally_resize(image_path, max_size=None, quality=90)`
(xafv.py lines 180-199): `fmt = im.format or "JPEG"`, derive the MIME
type, optionally resize, re-encode, and report the resized dimensions
(`width, height = im.size` runs after the resize). -/
def read_and_optionally_resize (img : PILImage) (max_size : Option Nat) : PreparedImage :=
  let fmt := if img.format = "" then "JPEG" else img.format
  let mime := mime_of_format fmt
  let wh := resize_dims img.width img.height max_size
  { data := img.encoded wh.1 wh.2, mime := mime, width := wh.1, height := wh.2 }

/-! ## Base64 (RFC 4648, used via `base64.b64encode` at xafv.py line 232)

Modelled from the spec: the source calls the standard library's base64
encoder on the serialized picture block; the alphabet and 3-byte/4-char
grouping below are that encoding. -/

/-- The 64-character base64 alphabet. -/
def b64chars : List Char :=
  ['A', 'B', 'C', 'D', 'E', 'F', 'G', 'H', 'I', 'J', 'K', 'L', 'M',
   'N', 'O', 'P', 'Q', 'R', 'S', 'T', 'U', 'V', 'W', 'X', 'Y', 'Z',
   'a', 'b', 'c', 'd', 'e', 'f', 'g', 'h', 'i', 'j', 'k', 'l', 'm',
   'n', 'o', 'p', 'q', 'r', 's', 't', 'u', 'v', 'w', 'x', 'y', 'z',
   '0', '1', '2', '3', '4', '5', '6', '7', '8', '9', '+', '/']

/-- Character for a sextet value. -/
def sextetChar (v : Nat) : Char := b64chars.getD v 'A'

/-- Sextet value of an alphabet character. -/
def charSextet (c : Char) : Nat := b64chars.indexOf c

/-- Base64 encoding of a byte list, with `=` padding. -/
def b64encode : List Nat → List Char
  | [] => []
  | [a] => [sextetChar (a / 4), sextetChar (a % 4 * 16), '=', '=']
  | [a, b] =>
    [sextetChar (a / 4), sextetChar (a % 4 * 16 + b / 16),
     sextetChar (b % 16 * 4), '=']
  | a :: b :: c :: rest =>
    sextetChar (a / 4) :: sextetChar (a % 4 * 16 + b / 16) ::
      sextetChar (b % 16 * 4 + c / 64) :: sextetChar (c % 64) ::
      b64encode rest

/-- Base64 decoding of a character list (padding only in the final
4-character group, as the encoder produces). -/
def b64decode : List Char → List Nat
  | c1 :: c2 :: c3 :: c4 :: rest =>
    let s1 := charSextet c1
    let s2 := charSextet c2
    if c3 = '=' then [s1 * 4 + s2 / 16]
    else
      let s3 := charSextet c3
      if c4 = '=' then [s1 * 4 + s2 / 16, s2 % 16 * 16 + s3 / 4]
      else
        (s1 * 4 + s2 / 16) :: (s2 % 16 * 16 + s3 / 4) ::
          (s3 % 4 * 64 + charSextet c4) :: b64decode rest
  | _ => []

/-! ## The picture metadata block (mutagen `Picture`, xafv.py 221-237)

Modelled from the spec: the "self-describing picture structure" with
"its defined binary layout" (§4.4) is the FLAC METADATA_BLOCK_PICTURE
produced by the external tagging library's `Picture.write()`: big-endian
32-bit fields for type, MIME length, description length, width, height,
depth, colors and data length, with the variable-length fields inline. -/

/-- Big-endian 32-bit encoding of a scalar field (byte weights 2^24,
2^16, 2^8, 1 written as literals). -/
def be32 (n : Nat) : List Nat :=
  [n / 16777216 % 256, n / 65536 % 256, n / 256 % 256, n % 256]

/-- Codepoint bytes of an ASCII string (the MIME and description
strings the source stores are ASCII, where UTF-8 and codepoints agree). -/
def strBytes (s : String) : List Nat := s.data.map (fun c => c.toNat)

/-- The picture structure built at xafv.py lines 223-230. -/
structure Picture where
  type : Nat
  mime : String
  desc : String
  width : Nat
  height : Nat
  depth : Nat
  colors : Nat
  data : List Nat
  deriving Repr, DecidableEq

/-- `Picture.write()`: the serialized METADATA_BLOCK_PICTURE. -/
def Picture.write (p : Picture) : List Nat :=
  be32 p.type ++
  be32 (strBytes p.mime).length ++ strBytes p.mime ++
  be32 (strBytes p.desc).length ++ strBytes p.desc ++
  be32 p.width ++ be32 p.height ++ be32 p.depth ++ be32 p.colors ++
  be32 p.data.length ++ p.data

/-- Reads one big-endian 32-bit field. -/
def readBe32 : List Nat → Option (Nat × List Nat)
  | a :: b :: c :: d :: rest => some (a * 16777216 + b * 65536 + c * 256 + d, rest)
  | _ => none

/-- Reads `n` raw bytes. -/
def readBytes (n : Nat) (l : List Nat) : Option (List Nat × List Nat) :=
  if n ≤ l.length then some (l.take n, l.drop n) else none

/-- Codepoint decoding inverse to `strBytes`. -/
def strOfBytes (l : List Nat) : String := String.mk (l.map Char.ofNat)

/-- Parser for the METADATA_BLOCK_PICTURE layout, inverse to
`Picture.write` on well-formed pictures. -/
def parsePicture (l : List Nat) : Option Picture := do
  let (ty, l) ← readBe32 l
  let (ml, l) ← readBe32 l
  let (mimeB, l) ← readBytes ml l
  let (dl, l) ← readBe32 l
  let (descB, l) ← readBytes dl l
  let (w, l) ← readBe32 l
  let (hgt, l) ← readBe32 l
  let (dep, l) ← readBe32 l
  let (cols, l) ← readBe32 l
  let (datl, l) ← readBe32 l
  let (dat, l) ← readBytes datl l
  if l = [] then
    some { type := ty, mime := strOfBytes mimeB, desc := strOfBytes descB,
           width := w, height := hgt, depth := dep, colors := cols, data := dat }
  else none

/-! ## Cover embedding, `embed_cover` (xafv.py lines 201-264)

The tagged audio file is modelled from the spec as an audio region plus
two tag stores (the external tagging library rewrites only the tag
region on `save()`); `embed_cover` itself follows xafv.py exactly. -/

/-- Failure modes of `embed_cover`. -/
inductive EmbedErr where
  | audioNotFound
  | imageNotFound
  | unsupported
  deriving Repr, DecidableEq

/-- The two container families the embedder recognizes. -/
inductive Fam where
  | mp4
  | opus
  deriving Repr, DecidableEq

/-- A tagged audio file: its extension (with leading dot, lowercased),
the untouched audio packet region, the MP4 tag atom store, and the
Vorbis comment store. -/
structure TaggedAudio where
  ext : String
  audio : List (List Nat)
  mp4Tags : List (String × List (List Nat))
  comments : List (String × List String)
  deriving Repr, DecidableEq

/-- Assignment into a tag dictionary: the key now maps to exactly the
given value, other keys are untouched. -/
def setTag {α : Type} (ts : List (String × α)) (k : String) (v : α) :
    List (String × α) :=
  (k, v) :: ts.filter (fun p => p.1 ≠ k)

/-- Lookup in a tag dictionary. -/
def lookupTag {α : Type} (ts : List (String × α)) (k : String) : Option α :=
  (ts.find? (fun p => p.1 == k)).map (fun p => p.2)

/-- The extensions dispatched to the atom-based family (xafv.py 210). -/
def mp4Exts : List String := [".m4a", ".mp4", ".m4b", ".m4r"]

/-- Python default of the `picture_type` parameter: 3, "front cover". -/
def default_picture_type : Nat := 3

/-- Python default of the `description` parameter. -/
def default_description : String := "Cover (front)"

/-- The atom-based write path (xafv.py 213-219 and 242-247): the tag
store gains a single cover entry, the audio region is untouched. -/
def embedMp4 (f : TaggedAudio) (prep : PreparedImage) : TaggedAudio :=
  { f with mp4Tags := setTag f.mp4Tags "covr" [prep.data] }

/-- The comment-block write path (xafv.py 221-237 and 248-262): build
the picture structure with the prepared image's dimensions, depth 24 and
default colors 0, serialize it, base64-encode it, and store it as the
single value of the `metadata_block_picture` comment. -/
def embedOpus (f : TaggedAudio) (prep : PreparedImage)
    (picture_type : Nat) (description : String) : TaggedAudio :=
  let pic : Picture :=
    { type := picture_type, mime := prep.mime, desc := description,
      width := prep.width, height := prep.height, depth := 24,
      colors := 0, data := prep.data }
  let b64 := String.mk (b64encode pic.write)
  { f with comments := setTag f.comments "metadata_block_picture" [b64] }

/-- `embed_cover(audio_path, image_path, max_image_side=None,
picture_type=3, description="Cover (front)")` (xafv.py lines 201-264):
prepare the image, dispatch on the extension, and otherwise fall back
to format auto-detection (`detect` models what the tagging library's
`File` recognizes the container as). -/
def embed_cover (f : TaggedAudio) (img : PILImage) (max_image_side : Option Nat)
    (picture_type : Nat) (description : String) (detect : Option Fam) :
    Except EmbedErr TaggedAudio :=
  let prep := read_and_optionally_resize img max_image_side
  if mp4Exts.contains f.ext then
    .ok (embedMp4 f prep)
  else if f.ext == ".opus" then
    .ok (embedOpus f prep picture_type description)
  else
    match detect with
    | some .mp4 => .ok (embedMp4 f prep)
    | some .opus => .ok (embedOpus f prep picture_type description)
    | none => .error .unsupported

/-! ## Concrete inputs used by witnesses and counterexamples -/

/-- A packet with a decode timestamp. -/
def pkt1 : Packet := { dts := some 0, pts := some 0, payload := [1, 2] }

/-- A packet without a decode timestamp. -/
def pkt2 : Packet := { dts := none, pts := some 5, payload := [3] }

/-- Another packet with a decode timestamp. -/
def pkt3 : Packet := { dts := some 10, pts := some 10, payload := [4, 5] }

/-- A concrete AAC audio stream with a dts-less packet in the middle. -/
def cAud1 : MediaStream :=
  { type := "audio", codecName := "aac", time_base := 1 / 44100,
    packets := [pkt1, pkt2, pkt3] }

/-- A concrete input with one video and one audio stream. -/
def cIn1 : InputFile :=
  { isFile := true, basename := "movie",
    streams := [{ type := "video", codecName := "h264", time_base := 1 / 90000,
                  packets := [] }, cAud1] }

/-- A concrete input whose first audio stream is 24-bit PCM, a codec
absent from `extension_map`. -/
def c2In : InputFile :=
  { isFile := true, basename := "clip",
    streams := [{ type := "audio", codecName := "pcm_s24le",
                  time_base := 1 / 48000, packets := [] }] }

/-- A concrete input without any audio stream. -/
def cIn6 : InputFile :=
  { isFile := true, basename := "silent",
    streams := [{ type := "video", codecName := "h264", time_base := 1 / 90000,
                  packets := [] }] }

/-- A single-color 100×100 image. -/
def solid100 : Img :=
  List.replicate 100 (List.replicate 100 ((100, 150, 200) : Nat × Nat × Nat))

/-- A 4×4 checkerboard of alternating light and dark cells with 16
distinct colors. -/
def checker4 : Img :=
  [[(10, 10, 10), (245, 245, 245), (20, 20, 20), (235, 235, 235)],
   [(250, 250, 250), (15, 15, 15), (240, 240, 240), (25, 25, 25)],
   [(30, 30, 30), (225, 225, 225), (40, 40, 40), (215, 215, 215)],
   [(230, 230, 230), (35, 35, 35), (220, 220, 220), (45, 45, 45)]]

/-- A single-color 800×800 image, large enough to trigger downsampling. -/
def big800 : Img :=
  List.replicate 800 (List.replicate 800 ((0, 0, 0) : Nat × Nat × Nat))

/-- A 1×1 single-color frame, classified solid by the heuristic. -/
def tiny1 : Img := [[(5, 5, 5)]]

/-- A concrete video input whose every decode yields the solid 1×1
frame. -/
def cV3 : VideoInput :=
  { isFile := true, basename := "vid", hasVideo := true,
    containerDuration := some 100000000, streamDuration := none,
    time_base := 1 / 1000, decode := fun _ => some tiny1 }

/-- A concrete video input whose every decode yields the (non-solid)
checkerboard frame. -/
def cV10 : VideoInput :=
  { isFile := true, basename := "vid", hasVideo := true,
    containerDuration := some 100000000, streamDuration := none,
    time_base := 1 / 1000, decode := fun _ => some checker4 }

/-- A concrete image used by the embedding witnesses. -/
def cImg9 : PILImage :=
  { width := 2, height := 1, format := "PNG", encoded := fun _ _ => [9] }

/-- A concrete atom-based audio file with empty tag stores. -/
def cF9 : TaggedAudio :=
  { ext := ".m4a", audio := [[1, 2], [3]], mp4Tags := [], comments := [] }

/-- The file `cF9` after embedding `cImg9`. -/
def cG9 : TaggedAudio :=
  { ext := ".m4a", audio := [[1, 2], [3]], mp4Tags := [("covr", [[9]])],
    comments := [] }

/-- A concrete image used by the comment-block embedding witness. -/
def cImg7 : PILImage :=
  { width := 2, height := 1, format := "PNG", encoded := fun _ _ => [10, 20] }

/-- A concrete Opus-style audio file with one unrelated comment. -/
def cF7 : TaggedAudio :=
  { ext := ".opus", audio := [[7]], mp4Tags := [],
    comments := [("artist", ["x"])] }

/-- The picture block the embedding of `cImg7` into `cF7` produces. -/
def cPic7 : Picture :=
  { type := 3, mime := "image/png", desc := "Cover (front)", width := 2,
    height := 1, depth := 24, colors := 0, data := [10, 20] }

/-- The single comment value stored by embedding `cImg7` into `cF7`. -/
def cB64 : String := String.mk (b64encode cPic7.write)

/-- The file `cF7` after embedding `cImg7`. -/
def cG7 : TaggedAudio :=
  { cF7 with comments := setTag cF7.comments "metadata_block_picture" [cB64] }

/-! ## Theorems about the remuxer -/

/-- The packet-copy loop appends exactly the packets that carry a decode
timestamp, in order. -/
theorem muxLoop_eq_filter (pkts : List Packet) :
    ∀ acc : List Packet,
      muxLoop acc pkts = acc ++ pkts.filter (fun p => p.dts.isSome) := by
  induction pkts with
  | nil => intro acc; simp [muxLoop]
  | cons p rest ih =>
    intro acc
    cases hd : p.dts with
    | none => simp [muxLoop, hd, ih]
    | some t =>
      simp only [muxLoop, hd, ih (acc ++ [p]), List.filter_cons, Option.isSome, if_pos]
      simp

/-- Claim C1: for every input with at least one audio stream, the remuxer
muxes into the output container exactly those packets of the first audio
stream that carry a decode timestamp, in file order and unchanged
(payload and timestamps preserved, no decode or re-encode); every packet
without a decode timestamp is dropped. -/
theorem c1_remux_first_audio (inp : InputFile) (folder : String) (s : MediaStream)
    (hfile : inp.isFile = true)
    (hs : inp.streams.find? (fun st => st.type == "audio") = some s) :
    ∃ o : OutContainer,
      (extract_audio_pure_python inp folder).result = .ok o ∧
      o.packets = s.packets.filter (fun p => p.dts.isSome) ∧
      (∀ p ∈ s.packets, p.dts = none → p ∉ o.packets) ∧
      (∀ p ∈ o.packets, p ∈ s.packets ∧ p.dts.isSome = true) := by
  refine ⟨{ filename := joinPath folder (inp.basename ++ "." ++ lookupExt s.codecName),
            codecName := s.codecName,
            packets := muxLoop [] s.packets }, ?_, ?_, ?_, ?_⟩
  · simp [extract_audio_pure_python, hfile, hs]
  · simp [muxLoop_eq_filter]
  · intro p hp hdts
    simp [muxLoop_eq_filter, List.mem_filter, hdts]
  · intro p hp
    rw [muxLoop_eq_filter, List.nil_append, List.mem_filter] at hp
    exact ⟨hp.1, hp.2⟩

/-- Claim C1 witness: the remuxer on a concrete two-stream input. -/
theorem c1_remux_first_audio_witness :
    cIn1.isFile = true ∧
    cIn1.streams.find? (fun st => st.type == "audio") = some cAud1 ∧
    (∃ o : OutContainer,
      (extract_audio_pure_python cIn1 ".").result = .ok o ∧
      o.packets = cAud1.packets.filter (fun p => p.dts.isSome) ∧
      (∀ p ∈ cAud1.packets, p.dts = none → p ∉ o.packets) ∧
      (∀ p ∈ o.packets, p ∈ cAud1.packets ∧ p.dts.isSome = true)) :=
  ⟨rfl, rfl, c1_remux_first_audio cIn1 "." cAud1 rfl rfl⟩

/-- Claim C2 counterexample: the claim maps `pcm_s24le` (pcm-24) to
`wav` and unknown codecs to a generic multiplexed-audio extension, but
the code's table has no `pcm_s24le` entry and its fallback is the codec
name itself: a 24-bit-PCM input named `clip` yields
`./clip.pcm_s24le`, not `./clip.wav` (nor a generic extension). -/
theorem c2_counterexample :
    (extract_audio_pure_python c2In ".").result =
      .ok { filename := "./clip.pcm_s24le", codecName := "pcm_s24le", packets := [] } ∧
    "./clip.pcm_s24le" ≠ "./clip.wav" ∧ "pcm_s24le" ≠ "mka" := by
  refine ⟨rfl, by decide, by decide⟩

/-- Claim C2 (amended): the output is named
`{output_folder}/{input_basename}.{ext}` where `ext` comes from the
fixed table (aac→m4a, mp3→mp3, flac→flac, opus→opus, vorbis→ogg,
alac→m4a, pcm_s16le→wav), and every codec identifier not in the table
falls back to the codec identifier itself as the extension rather than
the operation failing. -/
theorem c2_output_extension (inp : InputFile) (folder : String) (s : MediaStream)
    (hfile : inp.isFile = true)
    (hs : inp.streams.find? (fun st => st.type == "audio") = some s) :
    (∃ o : OutContainer,
      (extract_audio_pure_python inp folder).result = .ok o ∧
      o.filename = joinPath folder (inp.basename ++ "." ++ lookupExt s.codecName)) ∧
    lookupExt "aac" = "m4a" ∧ lookupExt "mp3" = "mp3" ∧
    lookupExt "flac" = "flac" ∧ lookupExt "opus" = "opus" ∧
    lookupExt "vorbis" = "ogg" ∧ lookupExt "alac" = "m4a" ∧
    lookupExt "pcm_s16le" = "wav" ∧
    (∀ codec : String, extension_map.lookup codec = none → lookupExt codec = codec) := by
  refine ⟨⟨{ filename := joinPath folder (inp.basename ++ "." ++ lookupExt s.codecName),
             codecName := s.codecName,
             packets := muxLoop [] s.packets }, ?_, rfl⟩,
          rfl, rfl, rfl, rfl, rfl, rfl, rfl, ?_⟩
  · simp [extract_audio_pure_python, hfile, hs]
  · intro codec hmiss
    simp [lookupExt, hmiss]

/-- Claim C2 witness: the naming rule on a concrete AAC input. -/
theorem c2_output_extension_witness :
    cIn1.isFile = true ∧
    cIn1.streams.find? (fun st => st.type == "audio") = some cAud1 ∧
    ((∃ o : OutContainer,
      (extract_audio_pure_python cIn1 ".").result = .ok o ∧
      o.filename = joinPath "." (cIn1.basename ++ "." ++ lookupExt cAud1.codecName)) ∧
    lookupExt "aac" = "m4a" ∧ lookupExt "mp3" = "mp3" ∧
    lookupExt "flac" = "flac" ∧ lookupExt "opus" = "opus" ∧
    lookupExt "vorbis" = "ogg" ∧ lookupExt "alac" = "m4a" ∧
    lookupExt "pcm_s16le" = "wav" ∧
    (∀ codec : String, extension_map.lookup codec = none → lookupExt codec = codec)) :=
  ⟨rfl, rfl, c2_output_extension cIn1 "." cAud1 rfl rfl⟩

/-- Claim C6: on an input containing no audio stream the remuxer fails
with the no-audio-stream error and never opens an output container, so
no output file is created. -/
theorem c6_no_audio_stream (inp : InputFile) (folder : String)
    (hfile : inp.isFile = true)
    (hno : ∀ st ∈ inp.streams, st.type ≠ "audio") :
    (extract_audio_pure_python inp folder).result = .error .noAudioStream ∧
    (extract_audio_pure_python inp folder).openedOutputs = [] := by
  have hfind : inp.streams.find? (fun st => st.type == "audio") = none := by
    rw [List.find?_eq_none]
    intro st hst
    simpa using hno st hst
  constructor <;> simp [extract_audio_pure_python, hfile, hfind]

/-- Claim C6 witness: the remuxer on a concrete video-only input. -/
theorem c6_no_audio_stream_witness :
    cIn6.isFile = true ∧ (∀ st ∈ cIn6.streams, st.type ≠ "audio") ∧
    ((extract_audio_pure_python cIn6 ".").result = .error .noAudioStream ∧
     (extract_audio_pure_python cIn6 ".").openedOutputs = []) :=
  ⟨rfl, by decide, c6_no_audio_stream cIn6 "." rfl (by decide)⟩

/-! ## Theorems about the solid-color heuristic -/

/-- Flattening a replicated row grid yields a replicated pixel list. -/
theorem flatten_replicate {α : Type} (n m : Nat) (a : α) :
    (List.replicate n (List.replicate m a)).flatten = List.replicate (n * m) a := by
  induction n with
  | zero => simp
  | succ k ih =>
    simp only [List.replicate_succ, List.flatten_cons, ih, Nat.succ_mul]
    rw [Nat.add_comm, List.replicate_add]

/-- Deduplicating a nonempty constant list yields a singleton. -/
theorem dedup_replicate {α : Type} [DecidableEq α] (n : Nat) (a : α) (h : 0 < n) :
    (List.replicate n a).dedup = [a] := by
  induction n with
  | zero => omega
  | succ k ih =>
    cases Nat.eq_zero_or_pos k with
    | inl hk =>
      subst hk
      simp
    | inr hk =>
      rw [List.replicate_succ, List.dedup_cons_of_mem (by simp [List.mem_replicate]; omega)]
      exact ih hk

/-- Height of a replicated grid. -/
theorem imgH_replicate (n : Nat) (row : List (Nat × Nat × Nat)) :
    imgH (List.replicate n row) = n := by
  simp [imgH]

/-- Width of a nonempty replicated grid. -/
theorem imgW_replicate (n m : Nat) (a : Nat × Nat × Nat) (h : 0 < n) :
    imgW (List.replicate n (List.replicate m a)) = m := by
  cases n with
  | zero => omega
  | succ k => simp [imgW, List.replicate_succ]

/-- The heuristic returns `true` iff the sample's distinct-color count
is small or every per-channel standard deviation is within tolerance
(stated squared, as variance against tolerance squared). -/
theorem is_solid_iff (img : Img) (tol : ℚ) (uct : Nat) :
    is_solid_color_image img tol uct = true ↔
      ((solidSample img).flatten.dedup.length ≤ uct ∨
       (0 ≤ tol ∧ ∀ ch ∈ sampleChannels img, listVar ch ≤ tol ^ 2)) := by
  by_cases h1 : (solidSample img).flatten.dedup.length ≤ uct
  · simp [is_solid_color_image, h1]
  · have hform :
        is_solid_color_image img tol uct =
          (sampleChannels img).all (fun ch => channelStdLe ch tol) := by
      simp only [is_solid_color_image]
      rw [if_neg h1]
      cases h : (sampleChannels img).all (fun ch => channelStdLe ch tol) <;> simp [h]
    rw [hform]
    simp only [List.all_eq_true, channelStdLe, decide_eq_true_eq]
    constructor
    · intro h
      have hmem : ((solidSample img).flatten.map (fun p => (p.1 : ℚ))) ∈
          sampleChannels img := by
        simp [sampleChannels]
      exact Or.inr ⟨(h _ hmem).1, fun ch hch => (h ch hch).2⟩
    · rintro (hc | ⟨ht, hall⟩)
      · exact absurd hc h1
      · intro ch hch
        exact ⟨ht, hall ch hch⟩

/-- Claim C4: the heuristic downsamples by taking every 4th row and
column exactly when the pixel count exceeds 500 000, and classifies the
image as solid iff the sample's distinct-color count is at most the
unique-color threshold or every per-channel standard deviation of the
sample is at most the tolerance (stated squared, as variance ≤ tol²);
under the defaults a single-color 100×100 image is solid and a 16-color
checkerboard is not. -/
theorem c4_solid_heuristic :
    (∀ (img : Img) (tol : ℚ) (uct : Nat),
      is_solid_color_image img tol uct = true ↔
        ((solidSample img).flatten.dedup.length ≤ uct ∨
         (0 ≤ tol ∧ ∀ ch ∈ sampleChannels img, listVar ch ≤ tol ^ 2))) ∧
    (∀ img : Img, imgH img * imgW img > 500000 →
      solidSample img = (every4 img).map every4) ∧
    (∀ img : Img, imgH img * imgW img ≤ 500000 → solidSample img = img) ∧
    is_solid_color_image solid100 5 10 = true ∧
    is_solid_color_image checker4 5 10 = false := by
  refine ⟨is_solid_iff, ?_, ?_, ?_, ?_⟩
  · intro img h
    unfold solidSample
    rw [if_pos h]
  · intro img h
    unfold solidSample
    rw [if_neg (by omega)]
  · have hW : imgW solid100 = 100 := imgW_replicate 100 100 _ (by norm_num)
    have hH : imgH solid100 = 100 := imgH_replicate 100 _
    have hsample : solidSample solid100 = solid100 := by
      unfold solidSample
      rw [if_neg (by rw [hH, hW]; norm_num)]
    have hded : (solidSample solid100).flatten.dedup.length = 1 := by
      rw [hsample]
      unfold solid100
      rw [flatten_replicate, dedup_replicate _ _ (by norm_num)]
      rfl
    simp [is_solid_color_image, hded]
  · have hs : solidSample checker4 = checker4 := by
      unfold solidSample
      rw [if_neg (by decide)]
    rw [Bool.eq_false_iff]
    intro htrue
    rcases (is_solid_iff checker4 5 10).mp htrue with hlen | ⟨-, hall⟩
    · rw [hs] at hlen
      exact absurd hlen (by decide)
    · have hmem : (checker4.flatten.map (fun p => (p.1 : ℚ))) ∈
          sampleChannels checker4 := by
        simp [sampleChannels, hs]
      have hvar := hall _ hmem
      norm_num [checker4, listVar, listMean] at hvar

/-- Claim C4 witness: the downsampling rule at a 800×800 image (above
the pixel threshold) and at the 100×100 image (below it). -/
theorem c4_solid_heuristic_witness :
    (imgH big800 * imgW big800 > 500000 ∧
     solidSample big800 = (every4 big800).map every4) ∧
    (imgH solid100 * imgW solid100 ≤ 500000 ∧ solidSample solid100 = solid100) := by
  have h1 : imgH big800 * imgW big800 > 500000 := by
    unfold big800
    rw [imgH_replicate, imgW_replicate 800 800 _ (by norm_num)]
    norm_num
  have h2 : imgH solid100 * imgW solid100 ≤ 500000 := by
    unfold solid100
    rw [imgH_replicate, imgW_replicate 100 100 _ (by norm_num)]
    norm_num
  exact ⟨⟨h1, c4_solid_heuristic.2.1 big800 h1⟩,
         ⟨h2, c4_solid_heuristic.2.2.1 solid100 h2⟩⟩

/-! ## Loop invariants of the frame-sampling attempt loop -/

/-- Once a first attempt path is recorded it is never changed. -/
theorem sampleLoop_fap_some (c : SampleCfg) (dur target : ℚ) :
    ∀ (offs : List ℚ) (i : Nat) (st : LoopSt) (p : String),
      st.first_attempt_path = some p →
      (sampleLoop c dur target i offs st).first_attempt_path = some p := by
  intro offs
  induction offs with
  | nil =>
    intro i st p h
    simpa [sampleLoop] using h
  | cons off rest ih =>
    intro i st p h
    simp only [sampleLoop]
    cases hd : c.decode (seek_tick c.time_base target dur off) with
    | none => exact ih (i + 1) _ p h
    | some img =>
      simp only [h]
      by_cases hsol :
          is_solid_color_image img c.tolerance c.unique_color_threshold = false
      · rw [if_pos hsol]
      · rw [if_neg hsol]
        exact ih (i + 1) _ p rfl

/-- The recorded seek ticks are always a prefix of the tick image of the
offset list, continuing the trace accumulated so far. -/
theorem sampleLoop_seeks (c : SampleCfg) (dur target : ℚ) :
    ∀ (offs : List ℚ) (i : Nat) (st : LoopSt),
      ∃ n, (sampleLoop c dur target i offs st).seeks =
        st.seeks ++
          (offs.map (fun off => seek_tick c.time_base target dur off)).take n := by
  intro offs
  induction offs with
  | nil =>
    intro i st
    exact ⟨0, by simp [sampleLoop]⟩
  | cons off rest ih =>
    intro i st
    simp only [sampleLoop]
    cases hd : c.decode (seek_tick c.time_base target dur off) with
    | none =>
      obtain ⟨n, hn⟩ :=
        ih (i + 1) { st with seeks := st.seeks ++ [seek_tick c.time_base target dur off] }
      exact ⟨n + 1, by simpa [List.append_assoc] using hn⟩
    | some img =>
      dsimp only
      by_cases hsol :
          is_solid_color_image img c.tolerance c.unique_color_threshold = false
      · rw [if_pos hsol]
        exact ⟨1, by simp⟩
      · rw [if_neg hsol]
        obtain ⟨n, hn⟩ := ih (i + 1)
          (LoopSt.mk _ _ _ (st.seeks ++ [seek_tick c.time_base target dur off]))
        refine ⟨n + 1, ?_⟩
        rw [hn]
        simp [List.append_assoc]

/-- When every decodable frame in the remaining attempts is solid, the
loop accepts nothing and the recorded fallback is the first attempt that
decoded a frame (kept from the state if already recorded). -/
theorem sampleLoop_all_solid (c : SampleCfg) (dur target : ℚ) :
    ∀ (offs : List ℚ) (i : Nat) (st : LoopSt),
      (∀ off ∈ offs, ∀ img,
        c.decode (seek_tick c.time_base target dur off) = some img →
        is_solid_color_image img c.tolerance c.unique_color_threshold = true) →
      st.saved_path = none →
      (sampleLoop c dur target i offs st).saved_path = none ∧
      (sampleLoop c dur target i offs st).first_attempt_path =
        (match st.first_attempt_path with
         | some p => some p
         | none => (firstIdx c dur target offs).map (fun k => attempt_out c (i + k))) := by
  intro offs
  induction offs with
  | nil =>
    intro i st hsolid hsv
    refine ⟨by simpa [sampleLoop] using hsv, ?_⟩
    cases h : st.first_attempt_path <;> simp [sampleLoop, firstIdx, h]
  | cons off rest ih =>
    intro i st hsolid hsv
    simp only [sampleLoop]
    cases hd : c.decode (seek_tick c.time_base target dur off) with
    | none =>
      dsimp only
      have hrec := ih (i + 1) { st with seeks := st.seeks ++ [seek_tick c.time_base target dur off] }
        (fun o ho img h => hsolid o (List.mem_cons_of_mem _ ho) img h) hsv
      refine ⟨hrec.1, ?_⟩
      rw [hrec.2]
      simp only [firstIdx, hd, Option.isSome_none]
      cases h : st.first_attempt_path with
      | some p => rfl
      | none =>
        rw [if_neg (by simp)]
        cases hfi : firstIdx c dur target rest <;>
          simp [hfi, Option.map_map, Nat.add_assoc, Nat.add_comm 1]
    | some img =>
      dsimp only
      have hsol := hsolid off (List.mem_cons_self off rest) img hd
      rw [if_neg (by simp [hsol])]
      have hfi : firstIdx c dur target (off :: rest) = some 0 := by
        simp [firstIdx, hd]
      rw [hfi]
      have hkey := ih (i + 1)
        (LoopSt.mk
          (match st.first_attempt_path with
           | none => some (attempt_out c i)
           | some p => some p)
          st.saved_path
          (if (match st.first_attempt_path with
               | none => some (attempt_out c i)
               | some p => some p) = some (attempt_out c i) then
             (if attempt_out c i ∈ st.files then st.files
              else st.files ++ [attempt_out c i])
           else
             (if attempt_out c i ∈ st.files then st.files
              else st.files ++ [attempt_out c i]).erase (attempt_out c i))
          (st.seeks ++ [seek_tick c.time_base target dur off]))
        (fun o ho img2 h2 => hsolid o (List.mem_cons_of_mem _ ho) img2 h2) hsv
      refine ⟨hkey.1, ?_⟩
      rw [hkey.2]
      cases h : st.first_attempt_path with
      | some p => rfl
      | none => simp

/-- If the loop finishes with no first attempt recorded, none was
recorded when it started. -/
theorem sampleLoop_init_fap_none (c : SampleCfg) (dur target : ℚ) :
    ∀ (offs : List ℚ) (i : Nat) (st : LoopSt),
      (sampleLoop c dur target i offs st).first_attempt_path = none →
      st.first_attempt_path = none := by
  intro offs
  induction offs with
  | nil =>
    intro i st h
    simpa [sampleLoop] using h
  | cons off rest ih =>
    intro i st h
    simp only [sampleLoop] at h
    cases hd : c.decode (seek_tick c.time_base target dur off) with
    | none =>
      rw [hd] at h
      dsimp only at h
      simpa using ih (i + 1) _ h
    | some img =>
      rw [hd] at h
      dsimp only at h
      exfalso
      by_cases hsol :
          is_solid_color_image img c.tolerance c.unique_color_threshold = false
      · rw [if_pos hsol] at h
        dsimp only at h
        cases hfp : st.first_attempt_path <;> rw [hfp] at h <;>
          exact absurd h (by simp)
      · rw [if_neg hsol] at h
        have h2 := ih (i + 1) _ h
        dsimp only at h2
        cases hfp : st.first_attempt_path <;> rw [hfp] at h2 <;>
          exact absurd h2 (by simp)

/-- If the loop finishes with no first attempt recorded, then no
attempted offset decoded a frame. -/
theorem sampleLoop_fap_none (c : SampleCfg) (dur target : ℚ) :
    ∀ (offs : List ℚ) (i : Nat) (st : LoopSt),
      (sampleLoop c dur target i offs st).first_attempt_path = none →
      st.first_attempt_path = none ∧
      ∀ off ∈ offs, c.decode (seek_tick c.time_base target dur off) = none := by
  intro offs
  induction offs with
  | nil =>
    intro i st h
    exact ⟨by simpa [sampleLoop] using h, by simp⟩
  | cons off rest ih =>
    intro i st h
    have hinit := sampleLoop_init_fap_none c dur target (off :: rest) i st h
    simp only [sampleLoop] at h
    cases hd : c.decode (seek_tick c.time_base target dur off) with
    | none =>
      rw [hd] at h
      dsimp only at h
      obtain ⟨h1, h2⟩ := ih (i + 1) _ h
      refine ⟨hinit, ?_⟩
      intro o ho
      rcases List.mem_cons.mp ho with rfl | ho2
      · exact hd
      · exact h2 o ho2
    | some img =>
      rw [hd] at h
      dsimp only at h
      exfalso
      by_cases hsol :
          is_solid_color_image img c.tolerance c.unique_color_threshold = false
      · rw [if_pos hsol] at h
        dsimp only at h
        rw [hinit] at h
        exact absurd h (by simp)
      · rw [if_neg hsol] at h
        have h2 := sampleLoop_init_fap_none c dur target rest (i + 1) _ h
        dsimp only at h2
        rw [hinit] at h2
        exact absurd h2 (by simp)

/-- Characterization of `firstIdx`: it points at the first offset whose
seek tick decodes a frame. -/
theorem firstIdx_spec (c : SampleCfg) (dur target : ℚ) :
    ∀ (offs : List ℚ) (k : Nat),
      firstIdx c dur target offs = some k →
      k < offs.length ∧
      (c.decode (seek_tick c.time_base target dur (offs.getD k 0))).isSome = true ∧
      ∀ j < k, c.decode (seek_tick c.time_base target dur (offs.getD j 0)) = none := by
  intro offs
  induction offs with
  | nil =>
    intro k h
    simp [firstIdx] at h
  | cons off rest ih =>
    intro k h
    simp only [firstIdx] at h
    by_cases hd : (c.decode (seek_tick c.time_base target dur off)).isSome = true
    · rw [if_pos hd] at h
      obtain rfl : (0 : Nat) = k := Option.some_injective _ h
      exact ⟨by simp, by simpa using hd, by omega⟩
    · rw [if_neg hd] at h
      obtain ⟨k2, hk2, rfl⟩ := Option.map_eq_some'.mp h
      obtain ⟨hlen, hsome, hprev⟩ := ih k2 hk2
      refine ⟨by simpa using Nat.succ_lt_succ hlen, by simpa using hsome, ?_⟩
      intro j hj
      cases j with
      | zero =>
        simpa using Option.not_isSome_iff_eq_none.mp (by simpa using hd)
      | succ j2 =>
        simpa using hprev j2 (by omega)

/-- When `firstIdx` finds nothing, no offset decodes a frame. -/
theorem firstIdx_none (c : SampleCfg) (dur target : ℚ) :
    ∀ offs : List ℚ,
      firstIdx c dur target offs = none →
      ∀ off ∈ offs, c.decode (seek_tick c.time_base target dur off) = none := by
  intro offs
  induction offs with
  | nil =>
    intro _ off h
    simp at h
  | cons off rest ih =>
    intro h o ho
    simp only [firstIdx] at h
    by_cases hd : (c.decode (seek_tick c.time_base target dur off)).isSome = true
    · rw [if_pos hd] at h
      exact Option.noConfusion h
    · rw [if_neg hd] at h
      rcases List.mem_cons.mp ho with rfl | ho2
      · exact Option.not_isSome_iff_eq_none.mp (by simpa using hd)
      · exact ih (by simpa using h) o ho2

/-- The sign-times-multiple term the code computes for retry `i = k + 1`
is term `k + 1` of the spec's alternating outward sequence. -/
theorem build_offset_term (step : ℚ) (k : Nat) :
    (if (k + 1) % 2 = 1 then (-1 : ℚ) else 1) * (((k + 1 + 1) / 2 : Nat) : ℚ) * step =
      claimed_offset step (k + 1) := by
  unfold claimed_offset
  rw [if_neg (Nat.succ_ne_zero k)]
  by_cases hpar : (k + 1) % 2 = 1
  · rw [if_pos hpar, if_pos hpar]
    have harith : (k + 1 + 1) / 2 = (k + 1) / 2 + 1 := by omega
    rw [harith]
    push_cast
    ring
  · rw [if_neg hpar, if_neg hpar]
    have harith : (k + 1 + 1) / 2 = (k + 1) / 2 := by omega
    rw [harith]
    ring

/-- The offset list the code builds and then slices to `max_attempts`
is exactly the spec's alternating outward sequence
`0, -step, +step, -2*step, +2*step, ...` truncated to the attempt
limit (empty for nonpositive limits). -/
theorem offsets_eq_claimed (m : Int) (step : ℚ) :
    pySliceTo (build_offsets m step) m =
      (List.range m.toNat).map (claimed_offset step) := by
  rcases le_or_lt m 0 with hm | hm
  · have h0 : m.toNat = 0 := by omega
    have h1 : (m - 1).toNat = 0 := by omega
    unfold build_offsets pySliceTo
    rw [h1, h0]
    simp only [List.range_zero, List.map_nil, List.append_nil]
    rcases eq_or_lt_of_le hm with rfl | hneg
    · simp
    · rw [if_neg (by omega)]
      have hx : ([(0 : ℚ)] : List ℚ).length - (-m).toNat = 0 := by
        simp only [List.length_singleton]
        omega
      rw [hx]
      simp
  · have hn : m.toNat = (m - 1).toNat + 1 := by omega
    unfold build_offsets pySliceTo
    rw [if_pos (by omega), hn, List.range_succ_eq_map]
    simp only [List.map_cons, List.map_map, List.singleton_append, List.take_succ_cons]
    rw [List.take_of_length_le (by simp)]
    rw [show claimed_offset step 0 = (0 : ℚ) by simp [claimed_offset]]
    exact congrArg (List.cons 0)
      (List.map_congr_left (fun k _ => by simpa using build_offset_term step k))

/-- Claim C10: with a nonpositive `max_attempts` the sliced offset list
is empty, so the attempt loop runs zero times: the sampler persists no
image file and fails with the no-frame error even though the input
decodes frames. -/
theorem c10_nonpositive_attempts (v : VideoInput) (percent : ℚ)
    (op : Option String) (fmtS : String) (m : Int) (step tol : ℚ) (uct : Nat)
    (d : ℚ) (hfile : v.isFile = true) (hpc : 0 ≤ percent ∧ percent ≤ 1)
    (hvid : v.hasVideo = true) (hres : resolve_duration v = some d)
    (hm : m ≤ 0) :
    extract_non_solid_frame v percent op fmtS m step tol uct =
      { files := [], seeks := [], result := .error .noFrame } := by
  have hoffs : pySliceTo (build_offsets m step) m = [] := by
    rw [offsets_eq_claimed]
    have h0 : m.toNat = 0 := by omega
    simp [h0]
  unfold extract_non_solid_frame
  rw [if_neg (by simp [hfile]), if_pos hpc, if_neg (by simp [hvid]), hres]
  dsimp only
  rw [hoffs]
  simp [sampleLoop]

/-- Claim C10 witness: a zero-attempt run on a 100-second input whose
decoder always yields a non-solid frame. -/
theorem c10_nonpositive_attempts_witness :
    cV10.isFile = true ∧ ((0 : ℚ) ≤ 1 / 10 ∧ (1 : ℚ) / 10 ≤ 1) ∧
    cV10.hasVideo = true ∧ resolve_duration cV10 = some 100 ∧
    ((0 : Int) ≤ 0) ∧
    extract_non_solid_frame cV10 (1 / 10) none "png" 0 (1 / 2) 5 10 =
      { files := [], seeks := [], result := .error .noFrame } := by
  have hres : resolve_duration cV10 = some 100 := by
    norm_num [resolve_duration, cV10, av_time_base]
  exact ⟨rfl, ⟨by norm_num, by norm_num⟩, rfl, hres, le_refl 0,
    c10_nonpositive_attempts cV10 (1 / 10) none "png" 0 (1 / 2) 5 10 100
      rfl ⟨by norm_num, by norm_num⟩ rfl hres (le_refl 0)⟩

/-- Claim C5: the retry offsets are `0, -step, +step, -2·step, +2·step,
...` truncated to `max_attempts`; every attempted seek tick is the
truncation of `clamp(duration · fraction + offset, 0, duration − 1e-3)`
divided by the time base, in attempt order; and at fraction 1/10 of a
100-second video the first attempt's clamped seek target is 10 seconds,
inside [9.5, 10.5]. -/
theorem c5_seek_schedule :
    (∀ (m : Int) (step : ℚ),
      pySliceTo (build_offsets m step) m =
        (List.range m.toNat).map (claimed_offset step)) ∧
    (∀ (v : VideoInput) (percent : ℚ) (op : Option String) (fmtS : String)
       (m : Int) (step tol : ℚ) (uct : Nat) (d : ℚ),
      resolve_duration v = some d →
      ∃ n, (extract_non_solid_frame v percent op fmtS m step tol uct).seeks =
        ((pySliceTo (build_offsets m step) m).map (fun off =>
          ratTrunc (seek_target_seconds (d * percent) off d / v.time_base))).take n) ∧
    (seek_target_seconds (100 * (1 / 10)) (claimed_offset (1 / 2) 0) 100 = 10 ∧
     (19 : ℚ) / 2 ≤ 10 ∧ (10 : ℚ) ≤ 21 / 2) := by
  refine ⟨offsets_eq_claimed, ?_, ?_, by norm_num, by norm_num⟩
  · intro v percent op fmtS m step tol uct d hres
    unfold extract_non_solid_frame
    by_cases hf : v.isFile = false
    · rw [if_pos hf]
      exact ⟨0, by simp⟩
    · rw [if_neg hf]
      by_cases hpc : 0 ≤ percent ∧ percent ≤ 1
      · rw [if_pos hpc]
        by_cases hv : v.hasVideo = false
        · rw [if_pos hv]
          exact ⟨0, by simp⟩
        · rw [if_neg hv]
          rw [hres]
          dsimp only
          obtain ⟨n, hn⟩ := sampleLoop_seeks (mkCfg v percent op fmtS tol uct)
            d (d * percent) (pySliceTo (build_offsets m step) m) 0
            { first_attempt_path := none, saved_path := none, files := [], seeks := [] }
          refine ⟨n, ?_⟩
          cases hsv : (sampleLoop (mkCfg v percent op fmtS tol uct) d (d * percent) 0
              (pySliceTo (build_offsets m step) m)
              { first_attempt_path := none, saved_path := none,
                files := [], seeks := [] }).saved_path with
          | some p =>
            dsimp only
            simpa [mkCfg, seek_tick] using hn
          | none =>
            dsimp only
            cases hfp : (sampleLoop (mkCfg v percent op fmtS tol uct) d (d * percent) 0
                (pySliceTo (build_offsets m step) m)
                { first_attempt_path := none, saved_path := none,
                  files := [], seeks := [] }).first_attempt_path with
            | some p =>
              dsimp only
              simpa [mkCfg, seek_tick] using hn
            | none =>
              dsimp only
              simpa [mkCfg, seek_tick] using hn
      · rw [if_neg hpc]
        exact ⟨0, by simp⟩
  · unfold seek_target_seconds claimed_offset
    rw [if_pos rfl]
    rw [min_eq_left (by norm_num), max_eq_right (by norm_num)]
    norm_num

/-- Claim C5 witness: the seek schedule of a default 7-attempt run on
the concrete 100-second input. -/
theorem c5_seek_schedule_witness :
    resolve_duration cV10 = some 100 ∧
    ∃ n, (extract_non_solid_frame cV10 (1 / 10) none "png" 7 (1 / 2) 5 10).seeks =
      ((pySliceTo (build_offsets 7 (1 / 2)) 7).map (fun off =>
        ratTrunc (seek_target_seconds (100 * (1 / 10)) off 100 /
          cV10.time_base))).take n := by
  have hres : resolve_duration cV10 = some 100 := by
    norm_num [resolve_duration, cV10, av_time_base]
  exact ⟨hres, c5_seek_schedule.2.1 cV10 (1 / 10) none "png" 7 (1 / 2) 5 10 100 hres⟩

/-- Claim C3: if at least one attempt decodes a frame but every decoded
frame is solid, the sampler returns the image persisted by the first
attempt that decoded a frame (retained although rejected); it returns
the no-frame error only when no attempt decodes any frame. -/
theorem c3_solid_fallback :
    (∀ (v : VideoInput) (percent : ℚ) (op : Option String) (fmtS : String)
       (m : Int) (step tol : ℚ) (uct : Nat) (d : ℚ),
      v.isFile = true → (0 ≤ percent ∧ percent ≤ 1) → v.hasVideo = true →
      resolve_duration v = some d →
      (∀ off ∈ pySliceTo (build_offsets m step) m, ∀ img,
        v.decode (seek_tick v.time_base (d * percent) d off) = some img →
        is_solid_color_image img tol uct = true) →
      (∃ off ∈ pySliceTo (build_offsets m step) m,
        (v.decode (seek_tick v.time_base (d * percent) d off)).isSome = true) →
      ∃ k : Nat,
        k < (pySliceTo (build_offsets m step) m).length ∧
        (v.decode (seek_tick v.time_base (d * percent) d
          ((pySliceTo (build_offsets m step) m).getD k 0))).isSome = true ∧
        (∀ j < k, v.decode (seek_tick v.time_base (d * percent) d
          ((pySliceTo (build_offsets m step) m).getD j 0)) = none) ∧
        (extract_non_solid_frame v percent op fmtS m step tol uct).result =
          .ok (attempt_out (mkCfg v percent op fmtS tol uct) k)) ∧
    (∀ (v : VideoInput) (percent : ℚ) (op : Option String) (fmtS : String)
       (m : Int) (step tol : ℚ) (uct : Nat) (d : ℚ),
      resolve_duration v = some d →
      (extract_non_solid_frame v percent op fmtS m step tol uct).result =
        .error .noFrame →
      ∀ off ∈ pySliceTo (build_offsets m step) m,
        v.decode (seek_tick v.time_base (d * percent) d off) = none) := by
  constructor
  · intro v percent op fmtS m step tol uct d hfile hpc hvid hres hsolid hdec
    unfold extract_non_solid_frame
    rw [if_neg (by simp [hfile]), if_pos hpc, if_neg (by simp [hvid]), hres]
    dsimp only
    have hall := sampleLoop_all_solid (mkCfg v percent op fmtS tol uct) d
      (d * percent) (pySliceTo (build_offsets m step) m) 0
      { first_attempt_path := none, saved_path := none, files := [], seeks := [] }
      (fun off ho img h => hsolid off ho img h) rfl
    obtain ⟨hsv, hfp⟩ := hall
    cases hfi : firstIdx (mkCfg v percent op fmtS tol uct) d (d * percent)
        (pySliceTo (build_offsets m step) m) with
    | none =>
      exfalso
      obtain ⟨off, ho, hoff⟩ := hdec
      have hnone := firstIdx_none (mkCfg v percent op fmtS tol uct) d
        (d * percent) _ hfi off ho
      rw [show (mkCfg v percent op fmtS tol uct).decode = v.decode from rfl] at hnone
      rw [show (mkCfg v percent op fmtS tol uct).time_base = v.time_base from rfl] at hnone
      rw [hnone] at hoff
      simp at hoff
    | some k =>
      obtain ⟨hk, hsome, hprev⟩ := firstIdx_spec (mkCfg v percent op fmtS tol uct)
        d (d * percent) _ k hfi
      refine ⟨k, hk, by simpa [mkCfg] using hsome,
        fun j hj => by simpa [mkCfg] using hprev j hj, ?_⟩
      rw [hsv]
      dsimp only
      rw [hfp]
      dsimp only
      rw [hfi]
      simp
  · intro v percent op fmtS m step tol uct d hres herr
    unfold extract_non_solid_frame at herr
    by_cases hf : v.isFile = false
    · rw [if_pos hf] at herr
      simp at herr
    · rw [if_neg hf] at herr
      by_cases hpc : 0 ≤ percent ∧ percent ≤ 1
      · rw [if_pos hpc] at herr
        by_cases hv : v.hasVideo = false
        · rw [if_pos hv] at herr
          simp at herr
        · rw [if_neg hv] at herr
          rw [hres] at herr
          dsimp only at herr
          cases hsv : (sampleLoop (mkCfg v percent op fmtS tol uct) d (d * percent) 0
              (pySliceTo (build_offsets m step) m)
              { first_attempt_path := none, saved_path := none,
                files := [], seeks := [] }).saved_path with
          | some p =>
            rw [hsv] at herr
            simp at herr
          | none =>
            rw [hsv] at herr
            dsimp only at herr
            cases hfp : (sampleLoop (mkCfg v percent op fmtS tol uct) d (d * percent) 0
                (pySliceTo (build_offsets m step) m)
                { first_attempt_path := none, saved_path := none,
                  files := [], seeks := [] }).first_attempt_path with
            | some p =>
              rw [hfp] at herr
              simp at herr
            | none =>
              have h2 := sampleLoop_fap_none (mkCfg v percent op fmtS tol uct) d
                (d * percent) (pySliceTo (build_offsets m step) m) 0
                { first_attempt_path := none, saved_path := none,
                  files := [], seeks := [] } hfp
              intro off ho
              simpa [mkCfg] using h2.2 off ho
      · rw [if_neg hpc] at herr
        simp at herr

/-- Claim C3 witness: a 7-attempt run where every attempt decodes the
solid 1×1 frame; the run returns the first attempt's persisted image. -/
theorem c3_solid_fallback_witness :
    cV3.isFile = true ∧ ((0 : ℚ) ≤ 1 / 10 ∧ (1 : ℚ) / 10 ≤ 1) ∧
    cV3.hasVideo = true ∧ resolve_duration cV3 = some 100 ∧
    (∀ off ∈ pySliceTo (build_offsets 7 (1 / 2)) 7, ∀ img,
      cV3.decode (seek_tick cV3.time_base (100 * (1 / 10)) 100 off) = some img →
      is_solid_color_image img 5 10 = true) ∧
    (∃ off ∈ pySliceTo (build_offsets 7 (1 / 2)) 7,
      (cV3.decode (seek_tick cV3.time_base (100 * (1 / 10)) 100 off)).isSome = true) ∧
    ∃ k : Nat,
      k < (pySliceTo (build_offsets 7 (1 / 2)) 7).length ∧
      (cV3.decode (seek_tick cV3.time_base (100 * (1 / 10)) 100
        ((pySliceTo (build_offsets 7 (1 / 2)) 7).getD k 0))).isSome = true ∧
      (∀ j < k, cV3.decode (seek_tick cV3.time_base (100 * (1 / 10)) 100
        ((pySliceTo (build_offsets 7 (1 / 2)) 7).getD j 0)) = none) ∧
      (extract_non_solid_frame cV3 (1 / 10) none "png" 7 (1 / 2) 5 10).result =
        .ok (attempt_out (mkCfg cV3 (1 / 10) none "png" 5 10) k) := by
  have hres : resolve_duration cV3 = some 100 := by
    norm_num [resolve_duration, cV3, av_time_base]
  have hsolid : ∀ off ∈ pySliceTo (build_offsets 7 (1 / 2)) 7, ∀ img,
      cV3.decode (seek_tick cV3.time_base (100 * (1 / 10)) 100 off) = some img →
      is_solid_color_image img 5 10 = true := by
    intro off _ img h
    obtain rfl : tiny1 = img := Option.some_injective _ h
    decide
  have hdec : ∃ off ∈ pySliceTo (build_offsets 7 (1 / 2)) 7,
      (cV3.decode (seek_tick cV3.time_base (100 * (1 / 10)) 100 off)).isSome = true := by
    refine ⟨0, ?_, rfl⟩
    rw [offsets_eq_claimed]
    exact List.mem_map.mpr ⟨0, by simp, by simp [claimed_offset]⟩
  exact ⟨rfl, ⟨by norm_num, by norm_num⟩, rfl, hres, hsolid, hdec,
    c3_solid_fallback.1 cV3 (1 / 10) none "png" 7 (1 / 2) 5 10 100
      rfl ⟨by norm_num, by norm_num⟩ rfl hres hsolid hdec⟩

/-! ## Facts about binary64 rounding -/

/-- Round-to-nearest-even is exact on integers. -/
theorem roundNearestEven_intCast (z : Int) : roundNearestEven (z : ℚ) = z := by
  unfold roundNearestEven
  rw [Int.fract_intCast, if_pos (by norm_num), Int.floor_intCast]

/-- Round-to-nearest-even moves a value by at most one half. -/
theorem roundNearestEven_bounds (q : ℚ) :
    q - 1 / 2 ≤ (roundNearestEven q : ℚ) ∧ (roundNearestEven q : ℚ) ≤ q + 1 / 2 := by
  have hf0 : 0 ≤ Int.fract q := Int.fract_nonneg q
  have hf1 : Int.fract q < 1 := Int.fract_lt_one q
  have hfl : q - Int.fract q = (⌊q⌋ : ℚ) := Int.self_sub_fract q
  unfold roundNearestEven
  by_cases h1 : Int.fract q < 1 / 2
  · rw [if_pos h1]
    constructor <;> linarith
  · rw [if_neg h1]
    by_cases h2 : 1 / 2 < Int.fract q
    · rw [if_pos h2]
      push_cast
      constructor <;> linarith
    · have heq : Int.fract q = 1 / 2 := le_antisymm (not_lt.mp h2) (not_lt.mp h1)
      rw [if_neg h2]
      by_cases h3 : ⌊q⌋ % 2 = 0
      · rw [if_pos h3]
        constructor <;> linarith
      · rw [if_neg h3]
        push_cast
        constructor <;> linarith

/-- Evaluation of round-to-nearest-even when the value sits strictly in
the lower half of its unit interval. -/
theorem rne_eval_lo (q : ℚ) (f : Int) (h1 : (f : ℚ) ≤ q) (h2 : q < (f : ℚ) + 1 / 2) :
    roundNearestEven q = f := by
  have hfl : ⌊q⌋ = f := Int.floor_eq_iff.mpr ⟨h1, by linarith⟩
  have hfr : Int.fract q < 1 / 2 := by
    have hs := Int.self_sub_fract q
    rw [hfl] at hs
    linarith
  unfold roundNearestEven
  rw [if_pos hfr]
  exact hfl

/-- Evaluation of round-to-nearest-even when the value sits strictly in
the upper half of its unit interval. -/
theorem rne_eval_hi (q : ℚ) (f : Int) (h1 : (f : ℚ) + 1 / 2 < q) (h2 : q < (f : ℚ) + 1) :
    roundNearestEven q = f + 1 := by
  have hfl : ⌊q⌋ = f := Int.floor_eq_iff.mpr ⟨by linarith, by linarith⟩
  have hfr : 1 / 2 < Int.fract q := by
    have hs := Int.self_sub_fract q
    rw [hfl] at hs
    linarith
  unfold roundNearestEven
  rw [if_neg (by linarith), if_pos hfr, hfl]

/-- `Int.log 2` is characterized by the two-sided power bound. -/
theorem int_log_eq {q : ℚ} (e : Int) (hq : 0 < q)
    (h1 : (2 : ℚ) ^ e ≤ q) (h2 : q < (2 : ℚ) ^ (e + 1)) : Int.log 2 q = e := by
  have hcast : (((2 : ℕ) : ℚ)) = (2 : ℚ) := by norm_num
  have hle : e ≤ Int.log 2 q := by
    have hmono : Int.log 2 ((2 : ℚ) ^ e) ≤ Int.log 2 q :=
      Int.log_mono_right (zpow_pos (by norm_num) e) h1
    rwa [show ((2 : ℚ) ^ e) = (((2 : ℕ) : ℚ)) ^ e by rw [hcast],
      Int.log_zpow one_lt_two e] at hmono
  have hge : Int.log 2 q ≤ e := by
    by_contra hcon
    push_neg at hcon
    have h3 : (2 : ℚ) ^ (e + 1) ≤ (2 : ℚ) ^ Int.log 2 q :=
      zpow_le_zpow_right₀ (by norm_num) (by omega)
    have h4 : (((2 : ℕ) : ℚ)) ^ Int.log 2 q ≤ q := Int.zpow_log_le_self one_lt_two hq
    rw [hcast] at h4
    linarith
  omega

/-- One binary64 rounding of a positive value keeps it within relative
error `eps`. -/
theorem flPos_bounds {q : ℚ} (hq : 0 < q) :
    q * (1 - eps) ≤ flPos q ∧ flPos q ≤ q * (1 + eps) := by
  unfold flPos
  set e := Int.log 2 q with he
  set p : ℚ := (2 : ℚ) ^ (e - 52) with hp
  have hppos : 0 < p := zpow_pos (by norm_num) _
  obtain ⟨hlo, hhi⟩ := roundNearestEven_bounds (q / p)
  have h2e : (((2 : ℕ) : ℚ)) ^ e ≤ q := Int.zpow_log_le_self one_lt_two hq
  rw [show (((2 : ℕ) : ℚ)) = (2 : ℚ) by norm_num] at h2e
  have hpA : p = (2 : ℚ) ^ e * (1 / 4503599627370496) := by
    rw [hp, zpow_sub₀ (by norm_num : (2 : ℚ) ≠ 0)]
    norm_num
    ring
  have hkey : p / 2 ≤ q * eps := by
    rw [hpA]
    unfold eps
    nlinarith [h2e]
  have hq1 : q / p * p = q := div_mul_cancel₀ q (ne_of_gt hppos)
  constructor
  · calc q * (1 - eps) = q - q * eps := by ring
    _ ≤ q - p / 2 := by linarith
    _ = (q / p - 1 / 2) * p := by
        field_simp
        ring
    _ ≤ (roundNearestEven (q / p) : ℚ) * p :=
        mul_le_mul_of_nonneg_right hlo (le_of_lt hppos)
  · calc ((roundNearestEven (q / p) : ℤ) : ℚ) * p ≤ (q / p + 1 / 2) * p :=
        mul_le_mul_of_nonneg_right hhi (le_of_lt hppos)
    _ = q + p / 2 := by
        field_simp
        ring
    _ ≤ q + q * eps := by linarith
    _ = q * (1 + eps) := by ring

/-- `fl` agrees with `flPos` on positive values. -/
theorem fl_pos_eq {q : ℚ} (hq : 0 < q) : fl q = flPos q := by
  unfold fl
  rw [if_neg (ne_of_gt hq), if_pos hq]

/-- One binary64 rounding keeps a positive value within relative error
`eps`. -/
theorem fl_bounds {q : ℚ} (hq : 0 < q) :
    q * (1 - eps) ≤ fl q ∧ fl q ≤ q * (1 + eps) := by
  rw [fl_pos_eq hq]
  exact flPos_bounds hq

/-- A positive value whose scaled significand is an integer is rounded
to itself. -/
theorem flPos_eq_self {q : ℚ} (z : ℤ)
    (hz : q / (2 : ℚ) ^ (Int.log 2 q - 52) = (z : ℚ)) : flPos q = q := by
  unfold flPos
  rw [hz, roundNearestEven_intCast, ← hz]
  exact div_mul_cancel₀ q (ne_of_gt (zpow_pos (by norm_num) _))

/-- Natural numbers below `2^53` are exactly representable in binary64. -/
theorem fl_natCast (n : Nat) (hn : n < 9007199254740992) : fl ((n : ℚ)) = n := by
  rcases Nat.eq_zero_or_pos n with rfl | hpos
  · simp [fl]
  · have hq : (0 : ℚ) < n := by exact_mod_cast hpos
    rw [fl_pos_eq hq]
    set e := Int.log 2 ((n : ℚ)) with he
    have he52 : e ≤ 52 := by
      by_contra hcon
      push_neg at hcon
      have h1 : (((2 : ℕ) : ℚ)) ^ e ≤ (n : ℚ) := Int.zpow_log_le_self one_lt_two hq
      rw [show (((2 : ℕ) : ℚ)) = (2 : ℚ) by norm_num] at h1
      have h2 : (2 : ℚ) ^ (53 : ℤ) ≤ (2 : ℚ) ^ e :=
        zpow_le_zpow_right₀ (by norm_num) (by omega)
      have h3 : ((9007199254740992 : ℚ)) ≤ (n : ℚ) := by
        calc (9007199254740992 : ℚ) = (2 : ℚ) ^ (53 : ℤ) := by norm_num
        _ ≤ (2 : ℚ) ^ e := h2
        _ ≤ n := h1
      have h4 : (n : ℚ) < 9007199254740992 := by exact_mod_cast hn
      linarith
    refine flPos_eq_self ((n * 2 ^ (52 - e).toNat : ℕ) : ℤ) ?_
    rw [div_eq_iff (ne_of_gt (zpow_pos (by norm_num) _))]
    push_cast
    rw [mul_assoc]
    have hexp : (2 : ℚ) ^ ((52 - e).toNat) * (2 : ℚ) ^ (e - 52) = 1 := by
      rw [show ((2 : ℚ) ^ ((52 - e).toNat)) = (2 : ℚ) ^ (((52 - e).toNat : ℤ)) by
        rw [zpow_natCast]]
      rw [← zpow_add₀ (by norm_num : (2 : ℚ) ≠ 0)]
      rw [show ((((52 - e).toNat : ℤ)) + (e - 52)) = 0 by omega]
      norm_num
    rw [hexp, mul_one]

/-- Truncation toward zero agrees with the floor on nonnegative
rationals. -/
theorem ratTrunc_eq_floor {q : ℚ} (hq : 0 ≤ q) : ratTrunc q = ⌊q⌋ := by
  unfold ratTrunc
  rw [Int.tdiv_eq_ediv (Rat.num_nonneg.mpr hq) (by positivity)]
  exact (Rat.floor_def).symm

/-- Evaluation rule for `fl` at a positive value with known leading
exponent and known rounded significand. -/
theorem fl_eval {q : ℚ} (e s : Int) (hq : 0 < q)
    (h1 : (2 : ℚ) ^ e ≤ q) (h2 : q < (2 : ℚ) ^ (e + 1))
    (hs : roundNearestEven (q / (2 : ℚ) ^ (e - 52)) = s) :
    fl q = (s : ℚ) * (2 : ℚ) ^ (e - 52) := by
  rw [fl_pos_eq hq]
  unfold flPos
  rw [int_log_eq e hq h1 h2, hs]

/-- One scaled-and-truncated side never exceeds the configured maximum:
its value is below `m + 1` after at most three roundings. -/
theorem scaled_trunc_le {L m x : Nat} (hm : 0 < m) (hL : m < L)
    (hL2 : L ≤ 1099511627776) (hx : x ≤ L) :
    (ratTrunc (fl (fl (x : ℚ) * fl (fl (m : ℚ) / fl (L : ℚ))))).toNat ≤ m := by
  have hLlt : L < 9007199254740992 := by omega
  have hmlt : m < 9007199254740992 := by omega
  have hxlt : x < 9007199254740992 := by omega
  rw [fl_natCast L hLlt, fl_natCast m hmlt, fl_natCast x hxlt]
  have hLq : (0 : ℚ) < L := by
    have : (0 : ℕ) < L := by omega
    exact_mod_cast this
  have hmq : (0 : ℚ) < m := by exact_mod_cast hm
  have hq0 : (0 : ℚ) < (m : ℚ) / L := div_pos hmq hLq
  obtain ⟨hs1, hs2⟩ := fl_bounds hq0
  have heps0 : (0 : ℚ) < 1 - eps := by unfold eps; norm_num
  have heps1 : (0 : ℚ) < 1 + eps := by unfold eps; norm_num
  have hspos : 0 < fl ((m : ℚ) / L) :=
    lt_of_lt_of_le (mul_pos hq0 heps0) hs1
  rcases Nat.eq_zero_or_pos x with rfl | hxpos
  · rw [Nat.cast_zero, zero_mul, show fl 0 = 0 from by simp [fl],
      ratTrunc_eq_floor le_rfl]
    simp
  · have hxq : (0 : ℚ) < x := by exact_mod_cast hxpos
    have hprod : 0 < (x : ℚ) * fl ((m : ℚ) / L) := mul_pos hxq hspos
    obtain ⟨hv1, hv2⟩ := fl_bounds hprod
    have hxL : (x : ℚ) ≤ L := by exact_mod_cast hx
    have hmB : (m : ℚ) ≤ 1099511627776 := by
      have h1 : (m : ℕ) ≤ 1099511627776 := by omega
      exact_mod_cast h1
    have c2 : (x : ℚ) * fl ((m : ℚ) / L) ≤ (L : ℚ) * fl ((m : ℚ) / L) :=
      mul_le_mul_of_nonneg_right hxL (le_of_lt hspos)
    have c3 : (L : ℚ) * fl ((m : ℚ) / L) ≤ (L : ℚ) * ((m : ℚ) / L * (1 + eps)) :=
      mul_le_mul_of_nonneg_left hs2 (le_of_lt hLq)
    have c4 : (L : ℚ) * ((m : ℚ) / L * (1 + eps)) = (m : ℚ) * (1 + eps) := by
      field_simp
    have c5 : fl ((x : ℚ) * fl ((m : ℚ) / L)) ≤ (m : ℚ) * ((1 + eps) * (1 + eps)) := by
      have := mul_le_mul_of_nonneg_right (c2.trans (c3.trans_eq c4)) (le_of_lt heps1)
      linarith
    have c6 : (m : ℚ) * ((1 + eps) * (1 + eps)) < m + 1 := by
      have h1 : (m : ℚ) * ((1 + eps) * (1 + eps)) = m + m * (2 * eps + eps ^ 2) := by
        ring
      have h2 : (m : ℚ) * (2 * eps + eps ^ 2) ≤ 1099511627776 * (2 * eps + eps ^ 2) :=
        mul_le_mul_of_nonneg_right hmB (by unfold eps; norm_num)
      have h3 : (1099511627776 : ℚ) * (2 * eps + eps ^ 2) < 1 := by
        unfold eps
        norm_num
      linarith
    have hv0 : 0 ≤ fl ((x : ℚ) * fl ((m : ℚ) / L)) :=
      le_of_lt (lt_of_lt_of_le (mul_pos hprod heps0) hv1)
    rw [ratTrunc_eq_floor hv0]
    have hfloor : ⌊fl ((x : ℚ) * fl ((m : ℚ) / L))⌋ < (m : ℤ) + 1 := by
      apply Int.floor_lt.mpr
      push_cast
      linarith
    omega

/-- The scaled-and-truncated longest side misses the configured maximum
by at most one: its value stays above `m - 1`. -/
theorem scaled_trunc_ge {L m : Nat} (hm : 0 < m) (hL : m < L)
    (hL2 : L ≤ 1099511627776) :
    m - 1 ≤ (ratTrunc (fl (fl (L : ℚ) * fl (fl (m : ℚ) / fl (L : ℚ))))).toNat := by
  have hLlt : L < 9007199254740992 := by omega
  have hmlt : m < 9007199254740992 := by omega
  rw [fl_natCast L hLlt, fl_natCast m hmlt]
  have hLq : (0 : ℚ) < L := by
    have : (0 : ℕ) < L := by omega
    exact_mod_cast this
  have hmq : (0 : ℚ) < m := by exact_mod_cast hm
  have hq0 : (0 : ℚ) < (m : ℚ) / L := div_pos hmq hLq
  obtain ⟨hs1, hs2⟩ := fl_bounds hq0
  have heps0 : (0 : ℚ) < 1 - eps := by unfold eps; norm_num
  have hspos : 0 < fl ((m : ℚ) / L) :=
    lt_of_lt_of_le (mul_pos hq0 heps0) hs1
  have hprod : 0 < (L : ℚ) * fl ((m : ℚ) / L) := mul_pos hLq hspos
  obtain ⟨hv1, hv2⟩ := fl_bounds hprod
  have hmB : (m : ℚ) ≤ 1099511627776 := by
    have h1 : (m : ℕ) ≤ 1099511627776 := by omega
    exact_mod_cast h1
  have c2 : (L : ℚ) * ((m : ℚ) / L * (1 - eps)) ≤ (L : ℚ) * fl ((m : ℚ) / L) :=
    mul_le_mul_of_nonneg_left hs1 (le_of_lt hLq)
  have c3 : (L : ℚ) * ((m : ℚ) / L * (1 - eps)) = (m : ℚ) * (1 - eps) := by
    field_simp
  have c5 : (m : ℚ) * ((1 - eps) * (1 - eps)) ≤ fl ((L : ℚ) * fl ((m : ℚ) / L)) := by
    have h4 := mul_le_mul_of_nonneg_right (c3.symm.trans_le c2) (le_of_lt heps0)
    calc (m : ℚ) * ((1 - eps) * (1 - eps))
        = (m : ℚ) * (1 - eps) * (1 - eps) := by ring
    _ ≤ (L : ℚ) * fl ((m : ℚ) / L) * (1 - eps) := h4
    _ ≤ fl ((L : ℚ) * fl ((m : ℚ) / L)) := hv1
  have c6 : (m : ℚ) - 1 < (m : ℚ) * ((1 - eps) * (1 - eps)) := by
    have h1 : (m : ℚ) * ((1 - eps) * (1 - eps)) = m - m * (2 * eps - eps ^ 2) := by
      ring
    have h2 : (m : ℚ) * (2 * eps - eps ^ 2) ≤ 1099511627776 * (2 * eps - eps ^ 2) :=
      mul_le_mul_of_nonneg_right hmB (by unfold eps; norm_num)
    have h3 : (1099511627776 : ℚ) * (2 * eps - eps ^ 2) < 1 := by
      unfold eps
      norm_num
    linarith
  have hv0 : 0 ≤ fl ((L : ℚ) * fl ((m : ℚ) / L)) :=
    le_of_lt (lt_of_lt_of_le (mul_pos hprod heps0) hv1)
  rw [ratTrunc_eq_floor hv0]
  have hfloor : (m : ℤ) - 1 ≤ ⌊fl ((L : ℚ) * fl ((m : ℚ) / L))⌋ := by
    apply Int.le_floor.mpr
    push_cast
    linarith
  omega

/-- The double division `1200 / float(2191)`. -/
theorem fl_1200_div_2191 :
    fl ((1200 : ℚ) / 2191) = 1233299761032541 / 2251799813685248 := by
  have hs : roundNearestEven (((1200 : ℚ) / 2191) / (2 : ℚ) ^ (-1 - 52 : ℤ)) =
      4933199044130164 := by
    rw [show ((1200 : ℚ) / 2191) / (2 : ℚ) ^ (-1 - 52 : ℤ) =
        10808639105689190400 / 2191 from by
      rw [show ((2 : ℚ) ^ (-1 - 52 : ℤ)) = 1 / 9007199254740992 from by norm_num]
      norm_num]
    exact rne_eval_lo _ 4933199044130164 (by norm_num) (by norm_num)
  have h := @fl_eval ((1200 : ℚ) / 2191) (-1) 4933199044130164
    (by norm_num)
    (by rw [show ((2 : ℚ) ^ (-1 : ℤ)) = 1 / 2 from by norm_num]; norm_num)
    (by rw [show ((2 : ℚ) ^ (-1 + 1 : ℤ)) = 1 from by norm_num]; norm_num)
    hs
  rw [h, show ((2 : ℚ) ^ (-1 - 52 : ℤ)) = 1 / 9007199254740992 from by norm_num]
  norm_num

/-- The double product `2191 * scale` for the rounded `1200/2191`. -/
theorem fl_2191_mul_scale :
    fl ((2191 : ℚ) * (1233299761032541 / 2251799813685248)) =
      5277655813324799 / 4398046511104 := by
  rw [show ((2191 : ℚ) * (1233299761032541 / 2251799813685248)) =
      2702159776422297331 / 2251799813685248 from by norm_num]
  have hs : roundNearestEven (((2702159776422297331 : ℚ) / 2251799813685248) /
      (2 : ℚ) ^ (10 - 52 : ℤ)) = 5277655813324799 := by
    rw [show ((2702159776422297331 : ℚ) / 2251799813685248) /
        (2 : ℚ) ^ (10 - 52 : ℤ) = 2702159776422297331 / 512 from by
      rw [show ((2 : ℚ) ^ (10 - 52 : ℤ)) = 1 / 4398046511104 from by norm_num]
      norm_num]
    exact rne_eval_lo _ 5277655813324799 (by norm_num) (by norm_num)
  have h := @fl_eval ((2702159776422297331 : ℚ) / 2251799813685248)
    10 5277655813324799
    (by norm_num)
    (by rw [show ((2 : ℚ) ^ (10 : ℤ)) = 1024 from by norm_num]; norm_num)
    (by rw [show ((2 : ℚ) ^ (10 + 1 : ℤ)) = 2048 from by norm_num]; norm_num)
    hs
  rw [h, show ((2 : ℚ) ^ (10 - 52 : ℤ)) = 1 / 4398046511104 from by norm_num]
  norm_num

/-- The double product `100 * scale` for the rounded `1200/2191`. -/
theorem fl_100_mul_scale :
    fl ((100 : ℚ) * (1233299761032541 / 2251799813685248)) =
      7708123506453381 / 140737488355328 := by
  rw [show ((100 : ℚ) * (1233299761032541 / 2251799813685248)) =
      30832494025813525 / 562949953421312 from by norm_num]
  have hs : roundNearestEven (((30832494025813525 : ℚ) / 562949953421312) /
      (2 : ℚ) ^ (5 - 52 : ℤ)) = 7708123506453381 := by
    rw [show ((30832494025813525 : ℚ) / 562949953421312) /
        (2 : ℚ) ^ (5 - 52 : ℤ) = 30832494025813525 / 4 from by
      rw [show ((2 : ℚ) ^ (5 - 52 : ℤ)) = 1 / 140737488355328 from by norm_num]
      norm_num]
    exact rne_eval_lo _ 7708123506453381 (by norm_num) (by norm_num)
  have h := @fl_eval ((30832494025813525 : ℚ) / 562949953421312)
    5 7708123506453381
    (by norm_num)
    (by rw [show ((2 : ℚ) ^ (5 : ℤ)) = 32 from by norm_num]; norm_num)
    (by rw [show ((2 : ℚ) ^ (5 + 1 : ℤ)) = 64 from by norm_num]; norm_num)
    hs
  rw [h, show ((2 : ℚ) ^ (5 - 52 : ℤ)) = 1 / 140737488355328 from by norm_num]
  norm_num

/-- The double division `1200 / float(4000)` (the rounding of 0.3). -/
theorem fl_1200_div_4000 :
    fl ((1200 : ℚ) / 4000) = 5404319552844595 / 18014398509481984 := by
  rw [show ((1200 : ℚ) / 4000) = 3 / 10 from by norm_num]
  have hs : roundNearestEven (((3 : ℚ) / 10) / (2 : ℚ) ^ (-2 - 52 : ℤ)) =
      5404319552844595 := by
    rw [show ((3 : ℚ) / 10) / (2 : ℚ) ^ (-2 - 52 : ℤ) =
        27021597764222976 / 5 from by
      rw [show ((2 : ℚ) ^ (-2 - 52 : ℤ)) = 1 / 18014398509481984 from by norm_num]
      norm_num]
    exact rne_eval_lo _ 5404319552844595 (by norm_num) (by norm_num)
  have h := @fl_eval ((3 : ℚ) / 10) (-2) 5404319552844595
    (by norm_num)
    (by rw [show ((2 : ℚ) ^ (-2 : ℤ)) = 1 / 4 from by norm_num]; norm_num)
    (by rw [show ((2 : ℚ) ^ (-2 + 1 : ℤ)) = 1 / 2 from by norm_num]; norm_num)
    hs
  rw [h, show ((2 : ℚ) ^ (-2 - 52 : ℤ)) = 1 / 18014398509481984 from by norm_num]
  norm_num

/-- The double product `4000 * scale` for the rounding of 0.3 lands on
exactly 1200. -/
theorem fl_4000_mul_scale :
    fl ((4000 : ℚ) * (5404319552844595 / 18014398509481984)) = 1200 := by
  rw [show ((4000 : ℚ) * (5404319552844595 / 18014398509481984)) =
      675539944105574375 / 562949953421312 from by norm_num]
  have hs : roundNearestEven (((675539944105574375 : ℚ) / 562949953421312) /
      (2 : ℚ) ^ (10 - 52 : ℤ)) = 5277655813324800 := by
    rw [show ((675539944105574375 : ℚ) / 562949953421312) /
        (2 : ℚ) ^ (10 - 52 : ℤ) = 675539944105574375 / 128 from by
      rw [show ((2 : ℚ) ^ (10 - 52 : ℤ)) = 1 / 4398046511104 from by norm_num]
      norm_num]
    exact (rne_eval_hi ((675539944105574375 : ℚ) / 128) 5277655813324799
      (by norm_num) (by norm_num)).trans (by norm_num)
  have h := @fl_eval ((675539944105574375 : ℚ) / 562949953421312)
    10 5277655813324800
    (by norm_num)
    (by rw [show ((2 : ℚ) ^ (10 : ℤ)) = 1024 from by norm_num]; norm_num)
    (by rw [show ((2 : ℚ) ^ (10 + 1 : ℤ)) = 2048 from by norm_num]; norm_num)
    hs
  rw [h, show ((2 : ℚ) ^ (10 - 52 : ℤ)) = 1 / 4398046511104 from by norm_num]
  norm_num

/-- The double product `3000 * scale` for the rounding of 0.3 lands on
exactly 900. -/
theorem fl_3000_mul_scale :
    fl ((3000 : ℚ) * (5404319552844595 / 18014398509481984)) = 900 := by
  rw [show ((3000 : ℚ) * (5404319552844595 / 18014398509481984)) =
      2026619832316723125 / 2251799813685248 from by norm_num]
  have hs : roundNearestEven (((2026619832316723125 : ℚ) / 2251799813685248) /
      (2 : ℚ) ^ (9 - 52 : ℤ)) = 7916483719987200 := by
    rw [show ((2026619832316723125 : ℚ) / 2251799813685248) /
        (2 : ℚ) ^ (9 - 52 : ℤ) = 2026619832316723125 / 256 from by
      rw [show ((2 : ℚ) ^ (9 - 52 : ℤ)) = 1 / 8796093022208 from by norm_num]
      norm_num]
    exact (rne_eval_hi ((2026619832316723125 : ℚ) / 256) 7916483719987199
      (by norm_num) (by norm_num)).trans (by norm_num)
  have h := @fl_eval ((2026619832316723125 : ℚ) / 2251799813685248)
    9 7916483719987200
    (by norm_num)
    (by rw [show ((2 : ℚ) ^ (9 : ℤ)) = 512 from by norm_num]; norm_num)
    (by rw [show ((2 : ℚ) ^ (9 + 1 : ℤ)) = 1024 from by norm_num]; norm_num)
    hs
  rw [h, show ((2 : ℚ) ^ (9 - 52 : ℤ)) = 1 / 8796093022208 from by norm_num]
  norm_num

/-- Full evaluation of the program's resize at 2191×100 with limit
1200: the longest side comes out one short of the limit. -/
theorem resize_2191 : resize_dims 2191 100 (some 1200) = (1199, 54) := by
  have h2191 : fl ((2191 : ℚ)) = 2191 := by
    have h := fl_natCast 2191 (by norm_num)
    push_cast at h
    exact h
  have h1200 : fl ((1200 : ℚ)) = 1200 := by
    have h := fl_natCast 1200 (by norm_num)
    push_cast at h
    exact h
  have h100 : fl ((100 : ℚ)) = 100 := by
    have h := fl_natCast 100 (by norm_num)
    push_cast at h
    exact h
  unfold resize_dims
  dsimp only
  rw [if_neg (by decide), if_pos (by decide)]
  rw [show (max 2191 100 : ℕ) = 2191 from by decide]
  push_cast
  rw [h2191, h1200, h100, fl_1200_div_2191, fl_2191_mul_scale, fl_100_mul_scale]
  rw [ratTrunc_eq_floor (by norm_num), ratTrunc_eq_floor (by norm_num)]
  rw [show ⌊(5277655813324799 : ℚ) / 4398046511104⌋ = 1199 from
      Int.floor_eq_iff.mpr ⟨by norm_num, by norm_num⟩]
  rw [show ⌊(7708123506453381 : ℚ) / 140737488355328⌋ = 54 from
      Int.floor_eq_iff.mpr ⟨by norm_num, by norm_num⟩]
  rfl

/-- Full evaluation of the program's resize at 4000×3000 with limit
1200: here the roundings land exactly on 1200×900. -/
theorem resize_4000 : resize_dims 4000 3000 (some 1200) = (1200, 900) := by
  have h4000 : fl ((4000 : ℚ)) = 4000 := by
    have h := fl_natCast 4000 (by norm_num)
    push_cast at h
    exact h
  have h3000 : fl ((3000 : ℚ)) = 3000 := by
    have h := fl_natCast 3000 (by norm_num)
    push_cast at h
    exact h
  have h1200 : fl ((1200 : ℚ)) = 1200 := by
    have h := fl_natCast 1200 (by norm_num)
    push_cast at h
    exact h
  unfold resize_dims
  dsimp only
  rw [if_neg (by decide), if_pos (by decide)]
  rw [show (max 4000 3000 : ℕ) = 4000 from by decide]
  push_cast
  rw [h4000, h3000, h1200, fl_1200_div_4000, fl_4000_mul_scale, fl_3000_mul_scale]
  rw [ratTrunc_eq_floor (by norm_num), ratTrunc_eq_floor (by norm_num)]
  rw [show ⌊(1200 : ℚ)⌋ = 1200 from Int.floor_eq_iff.mpr ⟨by norm_num, by norm_num⟩]
  rw [show ⌊(900 : ℚ)⌋ = 900 from Int.floor_eq_iff.mpr ⟨by norm_num, by norm_num⟩]
  rfl

/-! ## Theorems about image preparation and cover embedding -/

/-- Claim C8 counterexample: the claim asserts the resized longest side
is always exactly `max_image_side`; under the program's IEEE-754 double
arithmetic a 2191×100 image at limit 1200 resizes to 1199×54 — the
longest side is 1199, not 1200 (`int(2191 * (1200/2191.0))` rounds
down). -/
theorem c8_resize_counterexample :
    resize_dims 2191 100 (some 1200) = (1199, 54) ∧
    1200 < max 2191 100 ∧
    max (resize_dims 2191 100 (some 1200)).1
      (resize_dims 2191 100 (some 1200)).2 ≠ 1200 := by
  refine ⟨resize_2191, by decide, ?_⟩
  rw [resize_2191]
  decide

/-- Claim C8 (amended): with a positive `max_image_side` smaller than
the longest side (realistic sizes, at most 2^40 pixels a side), the
program's double-arithmetic resize scales both sides by one common
computed ratio `float(max/longest)` and truncates, so the resulting
longest side never exceeds `max_image_side` and is at least
`max_image_side - 1` (exactness can be lost to rounding, never by more
than one pixel); images at or below the limit are not resized;
`_read_and_optionally_resize` reports exactly these dimensions; a
4000×3000 image at limit 1200 still becomes exactly 1200×900. -/
theorem c8_resize_rounding :
    (∀ w h m : Nat, 0 < m → m < max w h → max w h ≤ 1099511627776 →
      m - 1 ≤ max (resize_dims w h (some m)).1 (resize_dims w h (some m)).2 ∧
      max (resize_dims w h (some m)).1 (resize_dims w h (some m)).2 ≤ m) ∧
    (∀ w h m : Nat, max w h ≤ m → resize_dims w h (some m) = (w, h)) ∧
    (∀ (img : PILImage) (ms : Option Nat),
      ((read_and_optionally_resize img ms).width,
       (read_and_optionally_resize img ms).height) =
        resize_dims img.width img.height ms) ∧
    resize_dims 4000 3000 (some 1200) = (1200, 900) := by
  refine ⟨?_, ?_, ?_, resize_4000⟩
  · intro w h m hm hlt hbound
    unfold resize_dims
    dsimp only
    rw [if_neg (by omega), if_pos hlt]
    rcases le_total h w with hcase | hcase
    · rw [max_eq_left hcase] at hlt hbound ⊢
      constructor
      · exact le_trans (scaled_trunc_ge hm hlt hbound) (le_max_left _ _)
      · exact max_le (scaled_trunc_le hm hlt hbound (le_refl w))
          (scaled_trunc_le hm hlt hbound hcase)
    · rw [max_eq_right hcase] at hlt hbound ⊢
      constructor
      · exact le_trans (scaled_trunc_ge hm hlt hbound) (le_max_right _ _)
      · exact max_le (scaled_trunc_le hm hlt hbound hcase)
          (scaled_trunc_le hm hlt hbound (le_refl h))
  · intro w h m hle
    unfold resize_dims
    dsimp only
    by_cases hm : m = 0
    · rw [if_pos hm]
    · rw [if_neg hm, if_neg (by omega)]
  · intro img ms
    simp [read_and_optionally_resize]

/-- Claim C8 witness: the amended bounds at the 2191×100 input (where
the longest side really comes out at 1199 = 1200 − 1) and the
no-resize rule at 800×600 with limit 1200. -/
theorem c8_resize_rounding_witness :
    ((0 : Nat) < 1200 ∧ 1200 < max 2191 100 ∧ max 2191 100 ≤ 1099511627776 ∧
      1200 - 1 ≤ max (resize_dims 2191 100 (some 1200)).1
        (resize_dims 2191 100 (some 1200)).2 ∧
      max (resize_dims 2191 100 (some 1200)).1
        (resize_dims 2191 100 (some 1200)).2 ≤ 1200) ∧
    (max 800 600 ≤ 1200 ∧ resize_dims 800 600 (some 1200) = (800, 600)) := by
  obtain ⟨hA, hB⟩ := c8_resize_rounding.1 2191 100 1200 (by decide) (by decide)
    (by decide)
  exact ⟨⟨by decide, by decide, by decide, hA, hB⟩,
    ⟨by decide, c8_resize_rounding.2.1 800 600 1200 (by decide)⟩⟩


/-- Claim C9: a successful `embed_cover` never changes the audio packet
region, on the atom-based path, the comment-block path, and both
auto-detected fallback paths alike — only the tag stores are written. -/
theorem c9_embed_preserves_audio (f g : TaggedAudio) (img : PILImage)
    (ms : Option Nat) (pt : Nat) (desc : String) (det : Option Fam)
    (hok : embed_cover f img ms pt desc det = .ok g) :
    g.audio = f.audio := by
  unfold embed_cover at hok
  by_cases h1 : mp4Exts.contains f.ext = true
  · rw [if_pos h1] at hok
    injection hok with h2
    subst h2
    rfl
  · rw [if_neg h1] at hok
    by_cases h2 : (f.ext == ".opus") = true
    · rw [if_pos h2] at hok
      injection hok with h3
      subst h3
      rfl
    · rw [if_neg h2] at hok
      cases det with
      | none => exact Except.noConfusion hok
      | some fam =>
        cases fam with
        | mp4 =>
          injection hok with h3
          subst h3
          rfl
        | opus =>
          injection hok with h3
          subst h3
          rfl

/-- Claim C9 witness: embedding into a concrete `.m4a` file leaves its
audio region untouched. -/
theorem c9_embed_preserves_audio_witness :
    embed_cover cF9 cImg9 none 3 "Cover (front)" none = .ok cG9 ∧
    cG9.audio = cF9.audio :=
  ⟨rfl, c9_embed_preserves_audio cF9 cG9 cImg9 none 3 "Cover (front)" none rfl⟩

/-! ## Round-trip lemmas for base64 and the picture block -/

/-- Decoding an alphabet character recovers its sextet value. -/
theorem charSextet_sextetChar : ∀ v : Nat, v < 64 → charSextet (sextetChar v) = v := by
  decide

/-- No alphabet character is the padding character. -/
theorem sextetChar_ne_pad : ∀ v : Nat, v < 64 → sextetChar v ≠ '=' := by
  decide

/-- Base64 decoding is a left inverse of encoding on byte lists. -/
theorem b64_roundtrip :
    ∀ l : List Nat, (∀ x ∈ l, x < 256) → b64decode (b64encode l) = l
  | [] => fun _ => rfl
  | [a] => fun h => by
    have ha : a < 256 := h a (by simp)
    simp only [b64encode, b64decode, if_true]
    rw [charSextet_sextetChar _ (by omega), charSextet_sextetChar _ (by omega)]
    have e1 : a / 4 * 4 + a % 4 * 16 / 16 = a := by omega
    rw [e1]
  | [a, b] => fun h => by
    have ha : a < 256 := h a (by simp)
    have hb : b < 256 := h b (by simp)
    simp only [b64encode, b64decode]
    rw [if_neg (sextetChar_ne_pad _ (by omega))]
    simp only [if_true]
    rw [charSextet_sextetChar _ (by omega), charSextet_sextetChar _ (by omega),
        charSextet_sextetChar _ (by omega)]
    have e1 : a / 4 * 4 + (a % 4 * 16 + b / 16) / 16 = a := by omega
    have e2 : (a % 4 * 16 + b / 16) % 16 * 16 + b % 16 * 4 / 4 = b := by omega
    rw [e1, e2]
  | a :: b :: c1 :: rest => fun h => by
    have ha : a < 256 := h a (by simp)
    have hb : b < 256 := h b (by simp)
    have hc : c1 < 256 := h c1 (by simp)
    have ih := b64_roundtrip rest (fun x hx => h x (by simp [hx]))
    simp only [b64encode, b64decode]
    rw [if_neg (sextetChar_ne_pad _ (by omega)),
        if_neg (sextetChar_ne_pad _ (by omega))]
    rw [charSextet_sextetChar _ (by omega), charSextet_sextetChar _ (by omega),
        charSextet_sextetChar _ (by omega), charSextet_sextetChar _ (by omega)]
    have e1 : a / 4 * 4 + (a % 4 * 16 + b / 16) / 16 = a := by omega
    have e2 : (a % 4 * 16 + b / 16) % 16 * 16 + (b % 16 * 4 + c1 / 64) / 4 = b := by
      omega
    have e3 : (b % 16 * 4 + c1 / 64) % 4 * 64 + c1 % 64 = c1 := by omega
    rw [e1, e2, e3, ih]

/-- Every byte of a serialized 32-bit field is below 256. -/
theorem be32_lt (n : Nat) : ∀ x ∈ be32 n, x < 256 := by
  intro x hx
  simp only [be32, List.mem_cons, List.not_mem_nil, or_false] at hx
  rcases hx with rfl | rfl | rfl | rfl <;> omega

/-- String bytes are below 256 when the string's codepoints are. -/
theorem strBytes_lt (s : String) (h : ∀ ch ∈ s.data, ch.toNat < 256) :
    ∀ x ∈ strBytes s, x < 256 := by
  intro x hx
  simp only [strBytes, List.mem_map] at hx
  obtain ⟨ch, hch, rfl⟩ := hx
  exact h ch hch

/-- Every byte of a serialized picture block is below 256 when its
variable-length fields are byte-valued. -/
theorem write_bytes_lt (p : Picture)
    (hm : ∀ ch ∈ p.mime.data, ch.toNat < 256)
    (hd : ∀ ch ∈ p.desc.data, ch.toNat < 256)
    (hdata : ∀ x ∈ p.data, x < 256) :
    ∀ x ∈ p.write, x < 256 := by
  intro x hx
  simp only [Picture.write, List.append_assoc, List.mem_append] at hx
  rcases hx with hx | hx | hx | hx | hx | hx | hx | hx | hx | hx | hx
  · exact be32_lt _ x hx
  · exact be32_lt _ x hx
  · exact strBytes_lt _ hm x hx
  · exact be32_lt _ x hx
  · exact strBytes_lt _ hd x hx
  · exact be32_lt _ x hx
  · exact be32_lt _ x hx
  · exact be32_lt _ x hx
  · exact be32_lt _ x hx
  · exact be32_lt _ x hx
  · exact hdata x hx

/-- Reading a 32-bit field back from its serialization. -/
theorem readBe32_append (n : Nat) (hn : n < 4294967296) (rest : List Nat) :
    readBe32 (be32 n ++ rest) = some (n, rest) := by
  simp only [be32, List.cons_append, List.nil_append, readBe32]
  have key : n / 16777216 % 256 * 16777216 + n / 65536 % 256 * 65536 +
      n / 256 % 256 * 256 + n % 256 = n := by omega
  rw [key]

/-- Reading back a length-prefixed byte run. -/
theorem readBytes_append (xs rest : List Nat) :
    readBytes xs.length (xs ++ rest) = some (xs, rest) := by
  unfold readBytes
  rw [if_pos (by simp)]
  rw [List.take_left, List.drop_left]

/-- Codepoint decoding undoes codepoint encoding. -/
theorem strOfBytes_strBytes (s : String) : strOfBytes (strBytes s) = s := by
  simp only [strOfBytes, strBytes, List.map_map]
  have : (Char.ofNat ∘ fun c => c.toNat) = id := by
    funext c
    simp [Char.ofNat_toNat]
  rw [this, List.map_id]

/-- Parsing a serialized picture block recovers the picture, provided
each scalar field and each length fits in 32 bits. -/
theorem parsePicture_write (p : Picture)
    (ht : p.type < 4294967296)
    (hml : (strBytes p.mime).length < 4294967296)
    (hdl : (strBytes p.desc).length < 4294967296)
    (hw : p.width < 4294967296) (hh : p.height < 4294967296)
    (hdep : p.depth < 4294967296) (hcol : p.colors < 4294967296)
    (hdat : p.data.length < 4294967296) :
    parsePicture p.write = some p := by
  unfold parsePicture Picture.write
  simp only [List.append_assoc]
  rw [readBe32_append _ ht]
  simp only [Option.bind_eq_bind, Option.some_bind]
  rw [readBe32_append _ hml]
  simp only [Option.some_bind]
  rw [readBytes_append]
  simp only [Option.some_bind]
  rw [readBe32_append _ hdl]
  simp only [Option.some_bind]
  rw [readBytes_append]
  simp only [Option.some_bind]
  rw [readBe32_append _ hw]
  simp only [Option.some_bind]
  rw [readBe32_append _ hh]
  simp only [Option.some_bind]
  rw [readBe32_append _ hdep]
  simp only [Option.some_bind]
  rw [readBe32_append _ hcol]
  simp only [Option.some_bind]
  rw [readBe32_append _ hdat]
  simp only [Option.some_bind]
  rw [show readBytes p.data.length p.data = some (p.data, []) from by
    simpa using readBytes_append p.data []]
  simp only [Option.some_bind, if_true]
  rw [strOfBytes_strBytes, strOfBytes_strBytes]

/-- Tag assignment stores exactly the assigned value under the key. -/
theorem lookupTag_setTag {α : Type} (ts : List (String × α)) (k : String) (v : α) :
    lookupTag (setTag ts k v) k = some v := by
  simp [lookupTag, setTag, List.find?]

/-- Claim C7: embedding into a comment-block (Opus-style) container
stores a single-valued base64 comment under `metadata_block_picture`
that decodes to a picture block whose width and height are those of the
(possibly resized) prepared image, whose picture-type code is the
default front-cover code 3, and whose color depth is the fixed 24. -/
theorem c7_opus_picture (f : TaggedAudio) (img : PILImage) (ms : Option Nat)
    (desc : String) (det : Option Fam) (g : TaggedAudio)
    (hext : f.ext = ".opus")
    (hdata : ∀ x ∈ (read_and_optionally_resize img ms).data, x < 256)
    (hdatl : (read_and_optionally_resize img ms).data.length < 4294967296)
    (hmimel : (strBytes (read_and_optionally_resize img ms).mime).length < 4294967296)
    (hdescl : (strBytes desc).length < 4294967296)
    (hw : (read_and_optionally_resize img ms).width < 4294967296)
    (hh : (read_and_optionally_resize img ms).height < 4294967296)
    (hmch : ∀ ch ∈ (read_and_optionally_resize img ms).mime.data, ch.toNat < 256)
    (hdch : ∀ ch ∈ desc.data, ch.toNat < 256)
    (hok : embed_cover f img ms default_picture_type desc det = .ok g) :
    ∃ s : String,
      lookupTag g.comments "metadata_block_picture" = some [s] ∧
      ∃ pic : Picture,
        parsePicture (b64decode s.data) = some pic ∧
        pic.width = (read_and_optionally_resize img ms).width ∧
        pic.height = (read_and_optionally_resize img ms).height ∧
        pic.width = (resize_dims img.width img.height ms).1 ∧
        pic.height = (resize_dims img.width img.height ms).2 ∧
        pic.type = default_picture_type ∧ pic.type = 3 ∧
        pic.depth = 24 := by
  unfold embed_cover at hok
  rw [hext] at hok
  rw [if_neg (by decide), if_pos (by decide)] at hok
  injection hok with hg
  subst hg
  set prep := read_and_optionally_resize img ms with hprep
  set pic : Picture :=
    { type := default_picture_type, mime := prep.mime, desc := desc,
      width := prep.width, height := prep.height, depth := 24,
      colors := 0, data := prep.data } with hpic
  refine ⟨String.mk (b64encode pic.write), ?_, pic, ?_, rfl, rfl, rfl, rfl, rfl, rfl, rfl⟩
  · exact lookupTag_setTag f.comments "metadata_block_picture" _
  · have hbytes : ∀ x ∈ pic.write, x < 256 :=
      write_bytes_lt pic hmch hdch hdata
    have hdec : b64decode (String.mk (b64encode pic.write)).data = pic.write :=
      b64_roundtrip pic.write hbytes
    rw [hdec]
    have htype : pic.type < 4294967296 := by
      rw [hpic]
      norm_num [default_picture_type]
    have hdep : pic.depth < 4294967296 := by
      rw [hpic]
      norm_num
    have hcol : pic.colors < 4294967296 := by
      rw [hpic]
      norm_num
    exact parsePicture_write pic htype hmimel hdescl hw hh hdep hcol hdatl

/-- Claim C7 witness: embedding into the concrete `.opus` file and
decoding the stored comment. -/
theorem c7_opus_picture_witness :
    cF7.ext = ".opus" ∧
    embed_cover cF7 cImg7 none default_picture_type "Cover (front)" none =
      .ok cG7 ∧
    ∃ s : String,
      lookupTag cG7.comments "metadata_block_picture" = some [s] ∧
      ∃ pic : Picture,
        parsePicture (b64decode s.data) = some pic ∧
        pic.width = (read_and_optionally_resize cImg7 none).width ∧
        pic.height = (read_and_optionally_resize cImg7 none).height ∧
        pic.width = (resize_dims cImg7.width cImg7.height none).1 ∧
        pic.height = (resize_dims cImg7.width cImg7.height none).2 ∧
        pic.type = default_picture_type ∧ pic.type = 3 ∧
        pic.depth = 24 := by
  refine ⟨rfl, rfl, c7_opus_picture cF7 cImg7 none "Cover (front)" none cG7
    rfl ?_ ?_ ?_ ?_ ?_ ?_ ?_ ?_ rfl⟩
  · decide
  · decide
  · decide
  · decide
  · decide
  · decide
  · decide
  · decide

end Xafv
